import Mathlib

/-!
Shallow embedding of the MemFile subsystem (src/nvim/memfile.c).

Blocks live in a block index (`mf_hash`, modelled as a list of block
headers looked up by block number), negative block numbers are memory-only,
and a translation table (`mf_trans`) records negative-to-positive
renumberings.  Machine integers: `blocknr_T` is a signed 64-bit number and
the claims never approach its bounds, so it is modelled as `Int`; C
`unsigned` flag words are modelled as `Nat` with masking against the 32-bit
all-ones word where the source complements a bit.

Environmental effects (success of OS reads/writes, bytes delivered by a
read, pending input, interrupts, fsync outcome) are supplied by an `Env`
record; uninitialised malloc memory is passed in explicitly as `junk`
arguments so that the source's `memset` is what makes fresh data zero.
-/

namespace Memfile

/-- Tri-state dirty flag of a memfile.  Modelled from the spec: the
`mfdirty_T` enum lives in memfile_defs.h, which is not among the given
sources; the spec's section 3.6 lists the three states. -/
inductive mfdirty_T where
  | MF_DIRTY_NO
  | MF_DIRTY_YES
  | MF_DIRTY_YES_NOSYNC
deriving DecidableEq, Repr

open mfdirty_T

/-- Block-header flag: block was changed, must be written to the file.
Modelled from the spec: the numeric values live in memfile_defs.h (not in
the given sources); flags form the set {LOCKED, DIRTY}, so two distinct
bits. -/
def BH_DIRTY : Nat := 1

/-- Block-header flag: block is pinned in memory. -/
def BH_LOCKED : Nat := 2

/-- mf_sync flag: also sync blocks with negative numbers. -/
def MFS_ALL : Nat := 1

/-- mf_sync flag: stop syncing when a character becomes available. -/
def MFS_STOP : Nat := 2

/-- mf_sync flag: fsync after writing. -/
def MFS_FLUSH : Nat := 4

/-- mf_sync flag: only write block 0. -/
def MFS_ZERO : Nat := 8

/-- Status value OK (vim.h). -/
def OK : Nat := 1

/-- Status value FAIL (vim.h). -/
def FAIL : Nat := 0

/-- The 32-bit all-ones word: complement of C `unsigned` bit b is
`UMASK ^^^ b`. -/
def UMASK : Nat := 4294967295

/-- `f & ~b` on a C `unsigned`. -/
def clearFlag (f b : Nat) : Nat := f &&& (UMASK ^^^ b)

/-- Block header (`bhdr_T`).  The owned data region is a byte list of
`page_size * page_count` bytes. -/
structure bhdr_T where
  bh_bnum : Int
  bh_page_count : Nat
  bh_flags : Nat
  bh_data : List Nat
deriving DecidableEq, Repr

/-- The memfile (`memfile_T`).  `mf_fd` is whether a swap file is open
(`mf_fd >= 0` in the source); the file handle itself is environmental.
The block index `mf_hash` is a list of headers keyed by `bh_bnum`; the
free list is the stack `mf_free_first`; the translation table `mf_trans`
is an association list old-negative to new-positive. -/
structure memfile_T where
  mf_fd : Bool
  mf_free_first : List bhdr_T
  mf_hash : List bhdr_T
  mf_trans : List (Int × Int)
  mf_page_size : Nat
  mf_blocknr_max : Int
  mf_blocknr_min : Int
  mf_neg_count : Int
  mf_infile_count : Int
  mf_dirty : mfdirty_T
deriving DecidableEq, Repr

/-- The swap file, as a map from page index to page contents ('written
pages').  Pages the model never wrote are absent. -/
abbrev File := List (Int × List Nat)

/-- Environment: outcomes of OS calls during one operation.  `writeOk nr`
decides whether the positioned write whose first page is `nr` succeeds
(seek and write errors are collapsed); `readOk`/`readData` likewise for
reads; `charAvail i` and `breakInt i` are `os_char_avail`/`os_breakcheck`
at the i-th sync step; `fsyncOk` is the outcome of `os_fsync`. -/
structure Env where
  writeOk : Int → Bool
  readOk : Int → Bool
  readData : Int → Nat → List Nat
  charAvail : Nat → Bool
  breakInt : Nat → Bool
  fsyncOk : Bool

/-- `pmap_get`: first header with the given block number. -/
def hashLookup (h : List bhdr_T) (nr : Int) : Option bhdr_T :=
  h.find? (fun hp => hp.bh_bnum == nr)

/-- `pmap_del`: remove the header(s) with the given block number. -/
def hashDel (h : List bhdr_T) (nr : Int) : List bhdr_T :=
  h.filter (fun hp => hp.bh_bnum != nr)

/-- `pmap_put`: insert a header, replacing any header with the same key. -/
def hashPut (h : List bhdr_T) (hp : bhdr_T) : List bhdr_T :=
  hp :: hashDel h hp.bh_bnum

/-- Pointer mutation of the header with key `nr` while it stays in the
index (position preserved). -/
def hashUpdate (h : List bhdr_T) (nr : Int) (f : bhdr_T → bhdr_T) : List bhdr_T :=
  h.map (fun hp => if hp.bh_bnum == nr then f hp else hp)

/-- `map_ref` on the translation table. -/
def transLookup (t : List (Int × Int)) (k : Int) : Option Int :=
  (t.find? (fun e => e.1 == k)).map Prod.snd

/-- `map_del` on the translation table. -/
def transDelKey (t : List (Int × Int)) (k : Int) : List (Int × Int) :=
  t.filter (fun e => e.1 != k)

/-- `map_put` on the translation table. -/
def transPut (t : List (Int × Int)) (k v : Int) : List (Int × Int) :=
  (k, v) :: transDelKey t k

/-- `mf_alloc_bhdr`: malloc'd header whose data region holds whatever was
in the fresh allocation (`junk`). -/
def mf_alloc_bhdr (page_count : Nat) (junk : List Nat) : bhdr_T :=
  { bh_bnum := 0, bh_page_count := page_count, bh_flags := 0, bh_data := junk }

/-- `mf_open`, reduced to the state the claims consult: geometry from the
file size (`mf_blocknr_max` is the size in pages rounded up), empty index,
translation table and free list, `mf_blocknr_min = -1`. -/
def mf_open (hasFile : Bool) (size : Int) (page_size : Nat) : memfile_T :=
  let bmax : Int := if hasFile = false ∨ size ≤ 0 ∨ page_size = 0 then 0
                    else (size + (page_size : Int) - 1) / (page_size : Int)
  { mf_fd := hasFile
    mf_free_first := []
    mf_hash := []
    mf_trans := []
    mf_page_size := page_size
    mf_blocknr_max := bmax
    mf_blocknr_min := -1
    mf_neg_count := 0
    mf_infile_count := bmax
    mf_dirty := MF_DIRTY_NO }

/-- Tail of `mf_new` after the header and its number are chosen: set
flags to LOCKED|DIRTY, mark the memfile dirty, store the page count,
insert into the index, and memset the data region to zero (the source
memsets through the pointer after `pmap_put`, so the zeroed data is what
the index holds). -/
def finishNew (mfp : memfile_T) (hp0 : bhdr_T) (page_count : Nat) : bhdr_T × memfile_T :=
  let hp : bhdr_T :=
    { hp0 with bh_flags := BH_LOCKED ||| BH_DIRTY
               bh_page_count := page_count
               bh_data := List.replicate (mfp.mf_page_size * page_count) 0 }
  (hp, { mfp with mf_dirty := MF_DIRTY_YES, mf_hash := hashPut mfp.mf_hash hp })

/-- The fresh-number branch of `mf_new`: take `mf_blocknr_min--` for a
negative block (bumping `mf_neg_count`) or `mf_blocknr_max += page_count`
for a positive one. -/
def newFresh (mfp : memfile_T) (negative : Bool) (page_count : Nat) (junk : List Nat) :
    bhdr_T × memfile_T :=
  let hp := mf_alloc_bhdr page_count junk
  if negative then
    finishNew { mfp with mf_blocknr_min := mfp.mf_blocknr_min - 1
                         mf_neg_count := mfp.mf_neg_count + 1 }
      { hp with bh_bnum := mfp.mf_blocknr_min } page_count
  else
    finishNew { mfp with mf_blocknr_max := mfp.mf_blocknr_max + (page_count : Int) }
      { hp with bh_bnum := mfp.mf_blocknr_max } page_count

/-- `mf_new`: create a new block and lock it.  `junk`/`junk2` are the
contents of the two possible uninitialised allocations. -/
def mf_new (mfp : memfile_T) (negative : Bool) (page_count : Nat)
    (junk junk2 : List Nat) : bhdr_T × memfile_T :=
  match mfp.mf_free_first with
  | freep :: rest =>
    if negative = false ∧ page_count ≤ freep.bh_page_count then
      if page_count < freep.bh_page_count then
        -- split the head of the free list in place, take the prefix
        let hp := { mf_alloc_bhdr page_count junk with bh_bnum := freep.bh_bnum }
        let freep1 := { freep with bh_bnum := freep.bh_bnum + (page_count : Int)
                                   bh_page_count := freep.bh_page_count - page_count }
        finishNew { mfp with mf_free_first := freep1 :: rest } hp page_count
      else
        -- exact fit: reuse the free header, allocate fresh data
        finishNew { mfp with mf_free_first := rest }
          { freep with bh_data := junk2 } page_count
    else
      newFresh mfp negative page_count junk
  | [] => newFresh mfp negative page_count junk

/-- `mf_get`: fetch and lock an existing block.  Returns the block (or
`none`) and the updated memfile. -/
def mf_get (mfp : memfile_T) (nr : Int) (page_count : Nat) (env : Env) :
    Option bhdr_T × memfile_T :=
  if nr ≥ mfp.mf_blocknr_max ∨ nr ≤ mfp.mf_blocknr_min then
    (none, mfp)                          -- block number out of range
  else
    match hashLookup mfp.mf_hash nr with
    | none =>
      if nr < 0 ∨ nr ≥ mfp.mf_infile_count then
        (none, mfp)                      -- can't be in the file
      else if page_count = 0 then
        (none, mfp)                      -- no header allocated
      else if mfp.mf_fd = false then
        (none, mfp)                      -- mf_read: no file; header freed
      else if env.readOk nr = false then
        (none, mfp)                      -- mf_read failed; header freed
      else
        let hp : bhdr_T :=
          { bh_bnum := nr, bh_page_count := page_count
            bh_flags := 0 ||| BH_LOCKED
            bh_data := env.readData nr page_count }
        (some hp, { mfp with mf_hash := hashPut mfp.mf_hash hp })
    | some hp =>
      let hp1 := { hp with bh_flags := hp.bh_flags ||| BH_LOCKED }
      (some hp1,
       { mfp with mf_hash := hashPut (hashDel mfp.mf_hash hp.bh_bnum) hp1 })

/-- `mf_trans_add`: give a negative block a positive number (from the free
list head if it has enough pages, else from `mf_blocknr_max`), re-key it
in the index and record the pair in the translation table.  Returns the
updated memfile and the block's (possibly new) number; the source's
return status is always OK. -/
def mf_trans_add (mfp : memfile_T) (nr : Int) : memfile_T × Int :=
  match hashLookup mfp.mf_hash nr with
  | none => (mfp, nr)
  | some hp =>
    if 0 ≤ hp.bh_bnum then (mfp, hp.bh_bnum)
    else
      let page_count := hp.bh_page_count
      let pick : memfile_T × Int :=
        match mfp.mf_free_first with
        | freep :: rest =>
          if page_count ≤ freep.bh_page_count then
            if page_count < freep.bh_page_count then
              ({ mfp with mf_free_first :=
                  { freep with bh_bnum := freep.bh_bnum + (page_count : Int)
                               bh_page_count := freep.bh_page_count - page_count } :: rest },
               freep.bh_bnum)
            else
              ({ mfp with mf_free_first := rest }, freep.bh_bnum)
          else
            ({ mfp with mf_blocknr_max := mfp.mf_blocknr_max + (page_count : Int) },
             mfp.mf_blocknr_max)
        | [] =>
          ({ mfp with mf_blocknr_max := mfp.mf_blocknr_max + (page_count : Int) },
           mfp.mf_blocknr_max)
      let new_bnum := pick.2
      let old_bnum := hp.bh_bnum
      ({ pick.1 with
           mf_hash := hashPut (hashDel pick.1.mf_hash old_bnum)
                        { hp with bh_bnum := new_bnum }
           mf_trans := transPut pick.1.mf_trans old_bnum new_bnum },
       new_bnum)

/-- `mf_put`: release the block numbered `nr` (the caller's pointer is a
live index entry).  Returns the updated memfile and whether the
block-was-not-locked error message was emitted. -/
def mf_put (mfp : memfile_T) (nr : Int) (dirty infile : Bool) : memfile_T × Bool :=
  match hashLookup mfp.mf_hash nr with
  | none => (mfp, false)
  | some hp =>
    let err := hp.bh_flags &&& BH_LOCKED == 0
    let flags := clearFlag hp.bh_flags BH_LOCKED
    let flags := if dirty then flags ||| BH_DIRTY else flags
    let mfp1 := if dirty then
                  (if mfp.mf_dirty ≠ MF_DIRTY_YES_NOSYNC then
                     { mfp with mf_dirty := MF_DIRTY_YES } else mfp)
                else mfp
    let mfp2 := { mfp1 with
                    mf_hash := hashUpdate mfp1.mf_hash nr
                                 (fun e => { e with bh_flags := flags }) }
    let mfp3 := if infile then (mf_trans_add mfp2 nr).1 else mfp2
    (mfp3, err)

/-- `mf_free`: destroy the block numbered `nr` (a live index entry).
Negative blocks just drop (`mf_neg_count--`); positive headers go onto
the free list (their data pointer is reused as the list link). -/
def mf_free (mfp : memfile_T) (nr : Int) : memfile_T :=
  match hashLookup mfp.mf_hash nr with
  | none => mfp
  | some hp =>
    let mfp1 := { mfp with mf_hash := hashDel mfp.mf_hash nr }
    if hp.bh_bnum < 0 then
      { mfp1 with mf_neg_count := mfp1.mf_neg_count - 1 }
    else
      { mfp1 with mf_free_first := { hp with bh_data := [] } :: mfp1.mf_free_first }

/-- `mf_trans_del`: look up `old_nr` in the translation table; if found,
remove the entry, decrement `mf_neg_count` and return the new number,
else return `old_nr` unchanged. -/
def mf_trans_del (mfp : memfile_T) (old_nr : Int) : Int × memfile_T :=
  match transLookup mfp.mf_trans old_nr with
  | none => (old_nr, mfp)
  | some new_bnum =>
    (new_bnum,
     { mfp with mf_neg_count := mfp.mf_neg_count - 1
                mf_trans := transDelKey mfp.mf_trans old_nr })

/-- One positioned page write: store the page. -/
def filePut (file : File) (p : Int) (page : List Nat) : File :=
  (p, page) :: file.filter (fun e => e.1 != p)

/-- Content of page `p`, if it was ever written. -/
def fileLookup (file : File) (p : Int) : Option (List Nat) :=
  (file.find? (fun e => e.1 == p)).map Prod.snd

/-- A successful positioned write of `page_count` pages of `data` (page
size `ps` bytes) whose first page is `nr`. -/
def fileWritePages (file : File) (nr : Int) (page_count ps : Nat) (data : List Nat) : File :=
  match page_count with
  | 0 => file
  | pc + 1 => fileWritePages (filePut file nr (data.take ps)) (nr + 1) pc ps (data.drop ps)

/-- The gap-filling write loop of `mf_write` (the `while (true)` body).
`nr0` is the (already translated, hence the caller ensures nonnegative in
real use) number of the block to write and is looked up live so that the
dirty-flag clearing of earlier iterations is seen.  Each iteration writes
at `nr = min(nr0, mf_infile_count)`; when `nr < nr0` the block living at
`nr` (or, if none, one filler page of `hp`'s data) is written, and
`mf_infile_count` advances past what was written.  `fuel` bounds the
iteration count; the caller passes enough for every run in which page
counts are at least 1 (the source loop needs no bound because such runs
terminate). -/
def mf_write_loop (env : Env) : Nat → memfile_T → File → Bool → Int →
    Nat × memfile_T × File × Bool
  | 0, mfp, file, didMsg, _ => (FAIL, mfp, file, didMsg)
  | fuel + 1, mfp, file, didMsg, nr0 =>
    match hashLookup mfp.mf_hash nr0 with
    | none => (FAIL, mfp, file, didMsg)
    | some hp =>
      let nr := if mfp.mf_infile_count < nr0 then mfp.mf_infile_count else nr0
      let hp2 := if mfp.mf_infile_count < nr0 then hashLookup mfp.mf_hash nr else some hp
      let page_count := match hp2 with | none => 1 | some h2 => h2.bh_page_count
      let data := match hp2 with | none => hp.bh_data | some h2 => h2.bh_data
      if env.writeOk nr = false then
        (FAIL, mfp, file, true)          -- write error; message throttled by didMsg
      else
        let file1 := fileWritePages file nr page_count mfp.mf_page_size data
        let hash1 := match hp2 with
          | none => mfp.mf_hash
          | some h2 => hashUpdate mfp.mf_hash h2.bh_bnum
              (fun e => { e with bh_flags := clearFlag e.bh_flags BH_DIRTY })
        let ic1 := if mfp.mf_infile_count < nr + (page_count : Int)
                   then nr + (page_count : Int) else mfp.mf_infile_count
        let mfp2 := { mfp with mf_hash := hash1, mf_infile_count := ic1 }
        if nr = nr0 then (OK, mfp2, file1, false)
        else mf_write_loop env fuel mfp2 file1 false nr0

/-- `mf_write`: write the block numbered `nr` (a live index entry) to the
swap file, translating a negative number first and filling any gap up to
it.  Returns (status, memfile, file, did_swapwrite_msg). -/
def mf_write (env : Env) (mfp : memfile_T) (file : File) (didMsg : Bool) (nr : Int) :
    Nat × memfile_T × File × Bool :=
  if mfp.mf_fd = false then (FAIL, mfp, file, didMsg)
  else
    let t := if nr < 0 then mf_trans_add mfp nr else (mfp, nr)
    mf_write_loop env ((t.2 - t.1.mf_infile_count).toNat + 1) t.1 file didMsg t.2

/-- The walk of `mf_sync` over the block index.  `nrs` is the snapshot of
index keys; each step re-reads the current entry (vanished keys are
skipped).  Returns (status, memfile, file, did_swapwrite_msg, got_int,
broke), where `broke` records whether the walk ended by `break`. -/
def syncLoop (env : Env) (flags : Nat) : List Int → Nat → Nat → memfile_T → File →
    Bool → Bool → Nat × memfile_T × File × Bool × Bool × Bool
  | [], _, status, mfp, file, didMsg, gi => (status, mfp, file, didMsg, gi, false)
  | nr :: rest, i, status, mfp, file, didMsg, gi =>
    match hashLookup mfp.mf_hash nr with
    | none => syncLoop env flags rest (i + 1) status mfp file didMsg gi
    | some hp =>
      if ((flags &&& MFS_ALL ≠ 0) ∨ 0 ≤ hp.bh_bnum)
         ∧ (hp.bh_flags &&& BH_DIRTY ≠ 0)
         ∧ (status = OK ∨ (0 ≤ hp.bh_bnum ∧ hp.bh_bnum < mfp.mf_infile_count)) then
        if (flags &&& MFS_ZERO ≠ 0) ∧ hp.bh_bnum ≠ 0 then
          syncLoop env flags rest (i + 1) status mfp file didMsg gi
        else
          match mf_write env mfp file didMsg hp.bh_bnum with
          | (wst, mfp1, file1, didMsg1) =>
            if wst = FAIL ∧ status = FAIL then
              (status, mfp1, file1, didMsg1, gi, true)      -- double error: quit
            else
              let status1 := if wst = FAIL then FAIL else status
              let gi1 := if flags &&& MFS_STOP ≠ 0 then gi else (gi || env.breakInt i)
              if (flags &&& MFS_STOP ≠ 0) ∧ env.charAvail i then
                (status1, mfp1, file1, didMsg1, gi1, true)  -- stop: char available
              else if gi1 then
                (status1, mfp1, file1, didMsg1, gi1, true)  -- interrupted
              else
                syncLoop env flags rest (i + 1) status1 mfp1 file1 didMsg1 gi1
      else
        syncLoop env flags rest (i + 1) status mfp file didMsg gi

/-- `mf_sync`: flush dirty blocks.  Returns (status, memfile, file,
did_swapwrite_msg, got_int).  After the walk the source tests
`hp == NULL || status == FAIL`; modelled from the spec, the iteration
cursor is null exactly when the walk ran off the end without `break`
(`broke = false`), and on that or on a write failure the memfile is set
MF_DIRTY_NO. -/
def mf_sync (env : Env) (mfp : memfile_T) (file : File) (didMsg got_int : Bool)
    (flags : Nat) : Nat × memfile_T × File × Bool × Bool :=
  if mfp.mf_fd = false then
    (FAIL, { mfp with mf_dirty := MF_DIRTY_NO }, file, didMsg, got_int)
  else
    match syncLoop env flags (mfp.mf_hash.map bhdr_T.bh_bnum) 0 OK mfp file didMsg false with
    | (status, mfp1, file1, didMsg1, gi, broke) =>
      let mfp2 := if broke = false ∨ status = FAIL then
                    { mfp1 with mf_dirty := MF_DIRTY_NO } else mfp1
      let status1 := if flags &&& MFS_FLUSH ≠ 0 ∧ env.fsyncOk = false then FAIL else status
      (status1, mfp2, file1, didMsg1, gi || got_int)

/-- `mf_set_dirty`: set BH_DIRTY on every positive-numbered block and mark
the memfile dirty. -/
def mf_set_dirty (mfp : memfile_T) : memfile_T :=
  { mfp with
      mf_hash := mfp.mf_hash.map
        (fun hp => if 0 < hp.bh_bnum
                   then { hp with bh_flags := hp.bh_flags ||| BH_DIRTY } else hp)
      mf_dirty := MF_DIRTY_YES }

/-- The free list cannot supply a request for `page_count` pages: it is
empty, or its head run is too short (the source only consults the head). -/
def cannotSupply (mfp : memfile_T) (page_count : Nat) : Bool :=
  match mfp.mf_free_first with
  | [] => true
  | freep :: _ => freep.bh_page_count < page_count

/-- Number of negative-numbered blocks in the block index. -/
def countNeg (h : List bhdr_T) : Int :=
  (h.countP (fun hp => hp.bh_bnum < 0) : Int)

/-- Structural well-formedness of a memfile, maintained by every
operation: the negative counter is ahead of all issued negative numbers,
the positive counter is nonnegative, index and translation keys are
unique, translation keys are negative issued numbers no longer in the
index, and free-list runs are positive-numbered. -/
def WF (mfp : memfile_T) : Prop :=
  mfp.mf_blocknr_min < 0 ∧
  0 ≤ mfp.mf_blocknr_max ∧
  (∀ hp ∈ mfp.mf_hash, mfp.mf_blocknr_min < hp.bh_bnum) ∧
  (mfp.mf_hash.map bhdr_T.bh_bnum).Nodup ∧
  (∀ e ∈ mfp.mf_trans, e.1 < 0 ∧ mfp.mf_blocknr_min < e.1) ∧
  (mfp.mf_trans.map Prod.fst).Nodup ∧
  (∀ e ∈ mfp.mf_trans, ∀ hp ∈ mfp.mf_hash, hp.bh_bnum ≠ e.1) ∧
  (∀ f ∈ mfp.mf_free_first, 0 ≤ f.bh_bnum)

instance (mfp : memfile_T) : Decidable (WF mfp) := by
  unfold WF
  infer_instance

/-- The accounting invariant of `mf_neg_count`: it equals the number of
negative-numbered blocks in the index plus the number of pending
translation entries. -/
def NegCountInv (mfp : memfile_T) : Prop :=
  mfp.mf_neg_count = countNeg mfp.mf_hash + (mfp.mf_trans.length : Int)

instance (mfp : memfile_T) : Decidable (NegCountInv mfp) := by
  unfold NegCountInv
  infer_instance

/-- States reachable from `mf_open` by the block-lifecycle operations
(`mf_new`, `mf_get`, `mf_put`, `mf_free`, `mf_trans_del`, and the internal
`mf_trans_add`), over arbitrary arguments and environments. -/
inductive Reachable : memfile_T → Prop where
  | base (hasFile : Bool) (size : Int) (page_size : Nat) :
      Reachable (mf_open hasFile size page_size)
  | step_new (mfp : memfile_T) (negative : Bool) (page_count : Nat) (junk junk2 : List Nat) :
      Reachable mfp → Reachable (mf_new mfp negative page_count junk junk2).2
  | step_get (mfp : memfile_T) (nr : Int) (page_count : Nat) (env : Env) :
      Reachable mfp → Reachable (mf_get mfp nr page_count env).2
  | step_put (mfp : memfile_T) (nr : Int) (dirty infile : Bool) :
      Reachable mfp → Reachable (mf_put mfp nr dirty infile).1
  | step_free (mfp : memfile_T) (nr : Int) :
      Reachable mfp → Reachable (mf_free mfp nr)
  | step_trans_add (mfp : memfile_T) (nr : Int) :
      Reachable mfp → Reachable (mf_trans_add mfp nr).1
  | step_trans_del (mfp : memfile_T) (old_nr : Int) :
      Reachable mfp → Reachable (mf_trans_del mfp old_nr).2

/-- Environment in which every OS call succeeds and no input or interrupt
arrives. -/
def exEnvOk : Env :=
  { writeOk := fun _ => true
    readOk := fun _ => true
    readData := fun _ _ => []
    charAvail := fun _ => false
    breakInt := fun _ => false
    fsyncOk := true }

/-- Environment in which every positioned write fails (full disk). -/
def exEnvWriteFail : Env :=
  { exEnvOk with writeOk := fun _ => false }

/-- A memory-only memfile with page size 1. -/
def exMem : memfile_T := mf_open false 0 1

/-- A file-backed memfile over an empty swap file, page size 1. -/
def exFile : memfile_T := mf_open true 0 1

/-- An unlocked block numbered 5. -/
def exBlkUnlocked : bhdr_T :=
  { bh_bnum := 5, bh_page_count := 1, bh_flags := 0, bh_data := [0] }

/-- A memfile holding the unlocked block 5. -/
def exStPutUnlocked : memfile_T :=
  { exMem with mf_hash := [exBlkUnlocked], mf_blocknr_max := 6 }

/-- A locked block numbered 5. -/
def exBlkLocked : bhdr_T :=
  { bh_bnum := 5, bh_page_count := 1, bh_flags := BH_LOCKED, bh_data := [0] }

/-- A memfile in the DIRTY_NO_SYNC state holding the locked block 5. -/
def exStNoSync : memfile_T :=
  { exMem with
      mf_hash := [exBlkLocked]
      mf_blocknr_max := 6
      mf_dirty := MF_DIRTY_YES_NOSYNC }

/-- A dirty block numbered 0. -/
def exBlk0 : bhdr_T :=
  { bh_bnum := 0, bh_page_count := 1, bh_flags := BH_DIRTY, bh_data := [7] }

/-- A dirty file-backed memfile whose only block is the dirty block 0,
not yet in the file. -/
def exStDirty0 : memfile_T :=
  { exFile with
      mf_hash := [exBlk0]
      mf_blocknr_max := 1
      mf_dirty := MF_DIRTY_YES }

/-- A dirty block numbered 1. -/
def exBlk1 : bhdr_T :=
  { bh_bnum := 1, bh_page_count := 1, bh_flags := BH_DIRTY, bh_data := [9] }

/-- A dirty file-backed memfile holding the dirty blocks 1 and 0, both
within the file footprint. -/
def exStZero : memfile_T :=
  { exFile with
      mf_hash := [exBlk1, exBlk0]
      mf_blocknr_max := 2
      mf_infile_count := 2
      mf_dirty := MF_DIRTY_YES }

/-- A locked dirty block numbered 2. -/
def exBlk2 : bhdr_T :=
  { bh_bnum := 2, bh_page_count := 1, bh_flags := BH_LOCKED ||| BH_DIRTY, bh_data := [3] }

/-- A file-backed memfile whose block 2 is dirty while the file is still
empty: writing block 2 must gap-fill pages 0 and 1. -/
def exStGap : memfile_T :=
  { exFile with
      mf_hash := [exBlk2]
      mf_blocknr_max := 3
      mf_dirty := MF_DIRTY_YES }

/-- The memfile after creating one negative block in `exMem`. -/
def exStNeg : memfile_T := (mf_new exMem true 1 [0] [0]).2

/-- `exStNeg` after releasing its negative block dirty and in-file: the
block has been translated to number 0 and the translation table holds the
pair (-1, 0). -/
def exStTrans : memfile_T := (mf_put exStNeg (-1) true true).1

theorem hashLookup_put (h : List bhdr_T) (hp : bhdr_T) :
    hashLookup (hashPut h hp) hp.bh_bnum = some hp := by
  simp [hashLookup, hashPut, List.find?]

theorem finishNew_spec (mfp : memfile_T) (hp0 : bhdr_T) (pc : Nat) :
    (finishNew mfp hp0 pc).1.bh_flags = (BH_LOCKED ||| BH_DIRTY) ∧
    (finishNew mfp hp0 pc).1.bh_data = List.replicate (mfp.mf_page_size * pc) 0 ∧
    hashLookup (finishNew mfp hp0 pc).2.mf_hash (finishNew mfp hp0 pc).1.bh_bnum
      = some (finishNew mfp hp0 pc).1 ∧
    (finishNew mfp hp0 pc).2.mf_dirty = MF_DIRTY_YES :=
  ⟨rfl, rfl, hashLookup_put _ _, rfl⟩

/-- C4: for every MemFile and page_count ≥ 1, the block returned by
mf_new has flags exactly LOCKED|DIRTY, its whole data region of
page_size * page_count bytes zero-initialised, is present in the block
index under its bnum, and the MemFile's dirty state is DIRTY after the
call. -/
theorem C4_new_block (mfp : memfile_T) (negative : Bool) (page_count : Nat)
    (junk junk2 : List Nat) (_hpc : 1 ≤ page_count) :
    (mf_new mfp negative page_count junk junk2).1.bh_flags = (BH_LOCKED ||| BH_DIRTY) ∧
    (mf_new mfp negative page_count junk junk2).1.bh_data
      = List.replicate (mfp.mf_page_size * page_count) 0 ∧
    hashLookup (mf_new mfp negative page_count junk junk2).2.mf_hash
        (mf_new mfp negative page_count junk junk2).1.bh_bnum
      = some (mf_new mfp negative page_count junk junk2).1 ∧
    (mf_new mfp negative page_count junk junk2).2.mf_dirty = MF_DIRTY_YES := by
  unfold mf_new newFresh
  split
  · split
    · split
      · exact finishNew_spec _ _ _
      · exact finishNew_spec _ _ _
    · split
      · exact finishNew_spec _ _ _
      · exact finishNew_spec _ _ _
  · split
    · exact finishNew_spec _ _ _
    · exact finishNew_spec _ _ _

/-- C4 witness at a concrete input. -/
theorem C4_witness :
    (mf_new exMem true 1 [5] [6]).1.bh_flags = (BH_LOCKED ||| BH_DIRTY) ∧
    (mf_new exMem true 1 [5] [6]).1.bh_data
      = List.replicate (exMem.mf_page_size * 1) 0 ∧
    hashLookup (mf_new exMem true 1 [5] [6]).2.mf_hash
        (mf_new exMem true 1 [5] [6]).1.bh_bnum
      = some (mf_new exMem true 1 [5] [6]).1 ∧
    (mf_new exMem true 1 [5] [6]).2.mf_dirty = MF_DIRTY_YES :=
  C4_new_block exMem true 1 [5] [6] (by decide)

/-- C5 counterexample: with a two-page request and an empty free list,
mf_new advances mf_blocknr_max by the page count (two), not by one as the
claim states. -/
theorem C5_cex :
    cannotSupply exMem 2 = true ∧
    ¬ ((mf_new exMem false 2 [0, 0] [0, 0]).2.mf_blocknr_max
        = exMem.mf_blocknr_max + 1) := by decide

/-- C5 amended: when the free list cannot supply the request,
mf_new(negative=false, page_count) assigns bnum = old blocknr_max and
advances blocknr_max by page_count (one only when page_count = 1), and
mf_new(negative=true, page_count) assigns bnum = old blocknr_min,
decrements blocknr_min by one and increments neg_count by one. -/
theorem C5_fresh_numbers (mfp : memfile_T) (page_count : Nat) (junk junk2 : List Nat)
    (h : cannotSupply mfp page_count = true) :
    ((mf_new mfp false page_count junk junk2).1.bh_bnum = mfp.mf_blocknr_max ∧
     (mf_new mfp false page_count junk junk2).2.mf_blocknr_max
        = mfp.mf_blocknr_max + (page_count : Int) ∧
     (mf_new mfp false page_count junk junk2).2.mf_blocknr_min = mfp.mf_blocknr_min ∧
     (mf_new mfp false page_count junk junk2).2.mf_neg_count = mfp.mf_neg_count) ∧
    ((mf_new mfp true page_count junk junk2).1.bh_bnum = mfp.mf_blocknr_min ∧
     (mf_new mfp true page_count junk junk2).2.mf_blocknr_min = mfp.mf_blocknr_min - 1 ∧
     (mf_new mfp true page_count junk junk2).2.mf_neg_count = mfp.mf_neg_count + 1 ∧
     (mf_new mfp true page_count junk junk2).2.mf_blocknr_max = mfp.mf_blocknr_max) := by
  unfold cannotSupply at h
  constructor
  · unfold mf_new
    split
    · rename_i freep rest heq
      rw [heq] at h
      rw [if_neg]
      · exact ⟨rfl, rfl, rfl, rfl⟩
      · rintro ⟨-, hle⟩
        exact absurd hle (Nat.not_le.mpr (by exact of_decide_eq_true h))
    · exact ⟨rfl, rfl, rfl, rfl⟩
  · unfold mf_new
    split
    · rw [if_neg]
      · exact ⟨rfl, rfl, rfl, rfl⟩
      · rintro ⟨hfalse, -⟩
        cases hfalse
    · exact ⟨rfl, rfl, rfl, rfl⟩

/-- C5 witness at a concrete input. -/
theorem C5_witness :
    (mf_new exMem false 2 [0, 0] [0, 0]).2.mf_blocknr_max
        = exMem.mf_blocknr_max + (2 : Nat) ∧
    (mf_new exMem true 2 [0, 0] [0, 0]).1.bh_bnum = exMem.mf_blocknr_min := by
  have h := C5_fresh_numbers exMem 2 [0, 0] [0, 0] (by decide)
  exact ⟨h.1.2.1, h.2.1⟩

/-- C6: mf_get returns None (without mutating the MemFile) when nr is out
of the issued range, and when nr is in range but absent from the index
while nr < 0 or nr ≥ infile_count. -/
theorem C6_get_rejects (mfp : memfile_T) (nr : Int) (page_count : Nat) (env : Env) :
    (nr ≥ mfp.mf_blocknr_max ∨ nr ≤ mfp.mf_blocknr_min →
       mf_get mfp nr page_count env = (none, mfp)) ∧
    (mfp.mf_blocknr_min < nr → nr < mfp.mf_blocknr_max →
       hashLookup mfp.mf_hash nr = none →
       (nr < 0 ∨ nr ≥ mfp.mf_infile_count) →
       mf_get mfp nr page_count env = (none, mfp)) := by
  constructor
  · intro h
    unfold mf_get
    rw [if_pos h]
  · intro h1 h2 hl h3
    unfold mf_get
    rw [if_neg (by omega)]
    simp only [hl]
    rw [if_pos h3]

/-- C6 witness at concrete inputs for both rejection paths. -/
theorem C6_witness :
    mf_get exFile 5 1 exEnvOk = (none, exFile) ∧
    mf_get exStGap 1 1 exEnvOk = (none, exStGap) :=
  ⟨(C6_get_rejects exFile 5 1 exEnvOk).1 (by decide),
   (C6_get_rejects exStGap 1 1 exEnvOk).2 (by decide) (by decide) (by decide) (by decide)⟩

theorem transLookup_delKey (t : List (Int × Int)) (k : Int) :
    transLookup (transDelKey t k) k = none := by
  induction t with
  | nil => rfl
  | cons e t ih =>
    by_cases he : e.1 = k
    · simp only [transDelKey, List.filter] at ih ⊢
      simp [he, ih]
    · have hb : (e.1 != k) = true := by simp [he]
      have h1 : transDelKey (e :: t) k = e :: transDelKey t k := by
        simp [transDelKey, List.filter, hb]
      rw [h1]
      unfold transLookup
      rw [List.find?_cons_of_neg _ (by simp [he])]
      exact ih

/-- C7: mf_trans_del removes a present entry, decrements neg_count and
returns the recorded new number, after which a second call with the same
old_nr returns old_nr; on an absent old_nr it returns old_nr and leaves
the MemFile unmutated. -/
theorem C7_trans_del (mfp : memfile_T) (old_nr : Int) :
    (∀ v, transLookup mfp.mf_trans old_nr = some v →
       (mf_trans_del mfp old_nr).1 = v ∧
       (mf_trans_del mfp old_nr).2.mf_trans = transDelKey mfp.mf_trans old_nr ∧
       (mf_trans_del mfp old_nr).2.mf_neg_count = mfp.mf_neg_count - 1 ∧
       mf_trans_del (mf_trans_del mfp old_nr).2 old_nr
         = (old_nr, (mf_trans_del mfp old_nr).2)) ∧
    (transLookup mfp.mf_trans old_nr = none → mf_trans_del mfp old_nr = (old_nr, mfp)) := by
  constructor
  · intro v hv
    have hred : mf_trans_del mfp old_nr
        = (v, { mfp with mf_neg_count := mfp.mf_neg_count - 1
                         mf_trans := transDelKey mfp.mf_trans old_nr }) := by
      simp only [mf_trans_del, hv]
    refine ⟨by rw [hred], by rw [hred], by rw [hred], ?_⟩
    rw [hred]
    simp only [mf_trans_del, transLookup_delKey]
  · intro h
    simp only [mf_trans_del, h]

/-- C7 witness at a concrete input: after translating the block created
with bnum = -1, trans_del(-1) yields 0 once, then -1. -/
theorem C7_witness :
    (mf_trans_del exStTrans (-1)).1 = 0 ∧
    (mf_trans_del exStTrans (-1)).2.mf_neg_count = exStTrans.mf_neg_count - 1 ∧
    mf_trans_del (mf_trans_del exStTrans (-1)).2 (-1)
      = (-1, (mf_trans_del exStTrans (-1)).2) := by
  have h := (C7_trans_del exStTrans (-1)).1 0 (by decide)
  exact ⟨h.1, h.2.2.1, h.2.2.2⟩


theorem hashLookup_update_eq (h : List bhdr_T) (k : Int) (f : bhdr_T → bhdr_T)
    (hf : ∀ e, (f e).bh_bnum = e.bh_bnum) :
    hashLookup (hashUpdate h k f) k = (hashLookup h k).map f := by
  induction h with
  | nil => rfl
  | cons e t ih =>
    by_cases hek : e.bh_bnum = k
    · have h1 : hashUpdate (e :: t) k f = f e :: hashUpdate t k f := by
        simp [hashUpdate, hek]
      rw [h1]
      unfold hashLookup
      rw [List.find?_cons_of_pos _ (by simp [hf, hek]),
          List.find?_cons_of_pos _ (by simp [hek])]
      rfl
    · have h1 : hashUpdate (e :: t) k f = e :: hashUpdate t k f := by
        simp [hashUpdate, hek]
      rw [h1]
      unfold hashLookup
      rw [List.find?_cons_of_neg _ (by simp [hek]),
          List.find?_cons_of_neg _ (by simp [hek])]
      exact ih

theorem hashLookup_update_ne (h : List bhdr_T) (k n : Int) (f : bhdr_T → bhdr_T)
    (hf : ∀ e, (f e).bh_bnum = e.bh_bnum) (hne : n ≠ k) :
    hashLookup (hashUpdate h k f) n = hashLookup h n := by
  induction h with
  | nil => rfl
  | cons e t ih =>
    by_cases hek : e.bh_bnum = k
    · have h1 : hashUpdate (e :: t) k f = f e :: hashUpdate t k f := by
        simp [hashUpdate, hek]
      rw [h1]
      unfold hashLookup
      rw [List.find?_cons_of_neg _ (by simp [hf, hek]; omega),
          List.find?_cons_of_neg _ (by simp [hek]; omega)]
      exact ih
    · have h1 : hashUpdate (e :: t) k f = e :: hashUpdate t k f := by
        simp [hashUpdate, hek]
      rw [h1]
      by_cases hen : e.bh_bnum = n
      · unfold hashLookup
        rw [List.find?_cons_of_pos _ (by simp [hen]),
            List.find?_cons_of_pos _ (by simp [hen])]
      · unfold hashLookup
        rw [List.find?_cons_of_neg _ (by simp [hen]),
            List.find?_cons_of_neg _ (by simp [hen])]
        exact ih

theorem mf_trans_add_dirty (m : memfile_T) (k : Int) :
    (mf_trans_add m k).1.mf_dirty = m.mf_dirty := by
  unfold mf_trans_add
  split
  · rfl
  · split
    · rfl
    · cases hfree : m.mf_free_first with
      | nil => rfl
      | cons freep rest =>
        rename_i hp heq hnot
        by_cases hle : hp.bh_page_count ≤ freep.bh_page_count
        · by_cases hlt : hp.bh_page_count < freep.bh_page_count
          · simp [hle, hlt]
          · simp [hle, hlt]
        · simp [hle]

/-- C2 counterexample: block 5 is live and its LOCKED flag is clear, and
mf_put(5, dirty=true, infile=false) surfaces the error, yet the MemFile is
mutated (its dirty state and the block's flags change). -/
theorem C2_cex :
    hashLookup exStPutUnlocked.mf_hash 5 = some exBlkUnlocked ∧
    exBlkUnlocked.bh_flags &&& BH_LOCKED = 0 ∧
    (mf_put exStPutUnlocked 5 true false).2 = true ∧
    (mf_put exStPutUnlocked 5 true false).1 ≠ exStPutUnlocked := by decide

/-- C2 amended: for every block whose LOCKED flag is clear, mf_put
surfaces the bad-argument error but does not return early: with
dirty=true it still clears LOCKED, sets the block's DIRTY flag, and
(unless the MemFile is in DIRTY_NO_SYNC) sets the MemFile's dirty state
to DIRTY; and with infile=true it runs translation, i.e. it produces
exactly the state mf_trans_add yields on the infile=false result. -/
theorem C2_put_unlocked (mfp : memfile_T) (nr : Int) (hp : bhdr_T)
    (hl : hashLookup mfp.mf_hash nr = some hp)
    (hunlocked : hp.bh_flags &&& BH_LOCKED = 0) :
    (mf_put mfp nr true false).2 = true ∧
    (mf_put mfp nr true true).2 = true ∧
    hashLookup (mf_put mfp nr true false).1.mf_hash nr
      = some { hp with bh_flags := clearFlag hp.bh_flags BH_LOCKED ||| BH_DIRTY } ∧
    (mfp.mf_dirty ≠ MF_DIRTY_YES_NOSYNC →
       (mf_put mfp nr true false).1.mf_dirty = MF_DIRTY_YES) ∧
    (∀ dirty : Bool, (mf_put mfp nr dirty true).1
       = (mf_trans_add (mf_put mfp nr dirty false).1 nr).1) := by
  refine ⟨?_, ?_, ?_, ?_, ?_⟩
  · simp [mf_put, hl, hunlocked]
  · simp [mf_put, hl, hunlocked]
  · simp only [mf_put, hl, if_true, Bool.false_eq_true, if_false,
               apply_ite memfile_T.mf_hash, ite_self]
    rw [hashLookup_update_eq]
    · rw [hl]
      rfl
    · intro e
      rfl
  · intro hd
    simp [mf_put, hl, hd]
  · intro dirty
    simp only [mf_put, hl, if_true, Bool.false_eq_true, if_false]

/-- C2 witness at a concrete input. -/
theorem C2_witness :
    (mf_put exStPutUnlocked 5 true false).2 = true ∧
    (mf_put exStPutUnlocked 5 true true).2 = true ∧
    hashLookup (mf_put exStPutUnlocked 5 true false).1.mf_hash 5
      = some { exBlkUnlocked with
                 bh_flags := clearFlag exBlkUnlocked.bh_flags BH_LOCKED ||| BH_DIRTY } ∧
    (exStPutUnlocked.mf_dirty ≠ MF_DIRTY_YES_NOSYNC →
       (mf_put exStPutUnlocked 5 true false).1.mf_dirty = MF_DIRTY_YES) ∧
    (mf_put exStPutUnlocked 5 true true).1
      = (mf_trans_add (mf_put exStPutUnlocked 5 true false).1 5).1 := by
  have h := C2_put_unlocked exStPutUnlocked 5 exBlkUnlocked (by decide) (by decide)
  exact ⟨h.1, h.2.1, h.2.2.1, h.2.2.2.1, h.2.2.2.2 true⟩

/-- C3 counterexample: with the MemFile in DIRTY_NO_SYNC and block 5
locked, mf_put(5, dirty=true, infile=false) nonetheless sets the block's
DIRTY flag, contradicting the claim that under DIRTY_NO_SYNC the block's
DIRTY flag is not set. -/
theorem C3_cex :
    exStNoSync.mf_dirty = MF_DIRTY_YES_NOSYNC ∧
    hashLookup exStNoSync.mf_hash 5 = some exBlkLocked ∧
    exBlkLocked.bh_flags &&& BH_LOCKED ≠ 0 ∧
    hashLookup (mf_put exStNoSync 5 true false).1.mf_hash 5
      = some { exBlkLocked with bh_flags := BH_DIRTY } ∧
    BH_DIRTY &&& BH_DIRTY ≠ 0 := by decide

/-- C3 amended: for every locked block, mf_put(block, dirty, infile)
clears LOCKED; when dirty=true it always sets the block's DIRTY flag
(also under DIRTY_NO_SYNC), and it sets the MemFile's dirty state to
DIRTY exactly when dirty=true and the MemFile is not in DIRTY_NO_SYNC. -/
theorem C3_put_locked (mfp : memfile_T) (nr : Int) (hp : bhdr_T) (dirty : Bool)
    (hl : hashLookup mfp.mf_hash nr = some hp)
    (_hlocked : hp.bh_flags &&& BH_LOCKED ≠ 0) :
    hashLookup (mf_put mfp nr dirty false).1.mf_hash nr
      = some { hp with bh_flags :=
          (if dirty then clearFlag hp.bh_flags BH_LOCKED ||| BH_DIRTY
           else clearFlag hp.bh_flags BH_LOCKED) } ∧
    (∀ infile : Bool, (mf_put mfp nr dirty infile).1.mf_dirty
      = (if dirty = true ∧ mfp.mf_dirty ≠ MF_DIRTY_YES_NOSYNC
         then MF_DIRTY_YES else mfp.mf_dirty)) ∧
    (dirty = true →
       (if dirty then clearFlag hp.bh_flags BH_LOCKED ||| BH_DIRTY
        else clearFlag hp.bh_flags BH_LOCKED) &&& BH_DIRTY ≠ 0) := by
  refine ⟨?_, ?_, ?_⟩
  · cases dirty with
    | false =>
      simp only [mf_put, hl, Bool.false_eq_true, if_false,
                 apply_ite memfile_T.mf_hash, ite_self]
      rw [hashLookup_update_eq]
      · rw [hl]
        rfl
      · intro e
        rfl
    | true =>
      simp only [mf_put, hl, if_true, Bool.false_eq_true, if_false,
                 apply_ite memfile_T.mf_hash, ite_self]
      rw [hashLookup_update_eq]
      · rw [hl]
        rfl
      · intro e
        rfl
  · intro infile
    cases dirty with
    | false =>
      cases infile with
      | false => simp [mf_put, hl]
      | true => simp [mf_put, hl, mf_trans_add_dirty]
    | true =>
      by_cases hd : mfp.mf_dirty = MF_DIRTY_YES_NOSYNC
      · cases infile with
        | false => simp [mf_put, hl, hd]
        | true => simp [mf_put, hl, hd, mf_trans_add_dirty]
      · cases infile with
        | false => simp [mf_put, hl, hd]
        | true => simp [mf_put, hl, hd, mf_trans_add_dirty]
  · intro hdt
    subst hdt
    simp only [if_true, BH_DIRTY]
    simp [Nat.and_one_is_mod, Nat.or_mod_two_eq_one]

/-- C3 witness at a concrete input. -/
theorem C3_witness :
    hashLookup (mf_put exStNoSync 5 true false).1.mf_hash 5
      = some { exBlkLocked with bh_flags :=
          (if true then clearFlag exBlkLocked.bh_flags BH_LOCKED ||| BH_DIRTY
           else clearFlag exBlkLocked.bh_flags BH_LOCKED) } ∧
    (mf_put exStNoSync 5 true true).1.mf_dirty
      = (if true = true ∧ exStNoSync.mf_dirty ≠ MF_DIRTY_YES_NOSYNC
         then MF_DIRTY_YES else exStNoSync.mf_dirty) := by
  have h := C3_put_locked exStNoSync 5 exBlkLocked true (by decide) (by decide)
  exact ⟨h.1, h.2.1 true⟩

/-- C1 counterexample: a dirty memfile whose only block is dirty block 0;
every write fails, mf_sync returns FAIL, and the MemFile's dirty state is
MF_DIRTY_NO afterwards — not DIRTY as the claim states. -/
theorem C1_cex :
    exStDirty0.mf_dirty = MF_DIRTY_YES ∧
    (mf_sync exEnvWriteFail exStDirty0 [] false false 0).1 = FAIL ∧
    (mf_sync exEnvWriteFail exStDirty0 [] false false 0).2.1.mf_dirty = MF_DIRTY_NO := by
  decide

/-- C1 amended: if the walk of mf_sync encounters any write failure
(result status FAIL, fsync failure excluded), then when mf_sync returns
the MemFile's dirty state is MF_DIRTY_NO — the flag is deliberately
cleared on failure as well, to avoid retrying all the time. -/
theorem C1_sync_fail_clears_dirty (env : Env) (mfp : memfile_T) (file : File)
    (didMsg got_int : Bool) (flags : Nat)
    (hflush : flags &&& MFS_FLUSH = 0 ∨ env.fsyncOk = true)
    (hfail : (mf_sync env mfp file didMsg got_int flags).1 = FAIL) :
    (mf_sync env mfp file didMsg got_int flags).2.1.mf_dirty = MF_DIRTY_NO := by
  unfold mf_sync at hfail ⊢
  by_cases hfd : mfp.mf_fd = false
  · rw [if_pos hfd]
  · rw [if_neg hfd] at hfail ⊢
    rcases hsl : syncLoop env flags (mfp.mf_hash.map bhdr_T.bh_bnum) 0 OK mfp file didMsg false
      with ⟨status, mfp1, file1, didMsg1, gi, broke⟩
    simp only [hsl] at hfail ⊢
    have hcond : ¬ (flags &&& MFS_FLUSH ≠ 0 ∧ env.fsyncOk = false) := by
      rcases hflush with h | h
      · rintro ⟨h1, -⟩
        exact h1 h
      · rintro ⟨-, h2⟩
        rw [h] at h2
        cases h2
    rw [if_neg hcond] at hfail
    rw [if_pos (Or.inr hfail)]

/-- C1 witness at a concrete input. -/
theorem C1_witness :
    (mf_sync exEnvWriteFail exStDirty0 [] false false 0).2.1.mf_dirty = MF_DIRTY_NO :=
  C1_sync_fail_clears_dirty exEnvWriteFail exStDirty0 [] false false 0
    (Or.inl (by decide)) (by decide)

theorem fileLookup_put_eq (file : File) (p : Int) (page : List Nat) :
    fileLookup (filePut file p page) p = some page := by
  unfold fileLookup filePut
  rw [List.find?_cons_of_pos _ (by simp)]
  rfl

theorem fileLookup_put_ne (file : File) (p q : Int) (page : List Nat) (h : q ≠ p) :
    fileLookup (filePut file p page) q = fileLookup file q := by
  unfold fileLookup filePut
  rw [List.find?_cons_of_neg _ (by simp; omega)]
  induction file with
  | nil => rfl
  | cons e t ih =>
    by_cases hep : e.1 = p
    · have hb : (e.1 != p) = false := by simp [hep]
      have h1 : List.filter (fun e => e.1 != p) (e :: t) = List.filter (fun e => e.1 != p) t := by
        simp [List.filter, hb]
      rw [h1]
      rw [List.find?_cons_of_neg _ (by simp [hep]; omega)]
      exact ih
    · have hb : (e.1 != p) = true := by simp [hep]
      have h1 : List.filter (fun e => e.1 != p) (e :: t)
          = e :: List.filter (fun e => e.1 != p) t := by
        simp [List.filter, hb]
      rw [h1]
      by_cases heq : e.1 = q
      · rw [List.find?_cons_of_pos _ (by simp [heq]), List.find?_cons_of_pos _ (by simp [heq])]
      · rw [List.find?_cons_of_neg _ (by simp [heq]), List.find?_cons_of_neg _ (by simp [heq])]
        exact ih

theorem fileWritePages_isSome_mono (ps : Nat) (p : Int) :
    ∀ (pc : Nat) (file : File) (nr : Int) (d : List Nat),
      (fileLookup file p).isSome = true →
      (fileLookup (fileWritePages file nr pc ps d) p).isSome = true := by
  intro pc
  induction pc with
  | zero => intro file nr d h; exact h
  | succ pc ih =>
    intro file nr d h
    unfold fileWritePages
    apply ih
    by_cases hpn : p = nr
    · rw [hpn, fileLookup_put_eq]
      rfl
    · rw [fileLookup_put_ne _ _ _ _ hpn]
      exact h

theorem fileWritePages_covers (ps : Nat) (p : Int) :
    ∀ (pc : Nat) (file : File) (nr : Int) (d : List Nat),
      nr ≤ p → p < nr + (pc : Int) →
      (fileLookup (fileWritePages file nr pc ps d) p).isSome = true := by
  intro pc
  induction pc with
  | zero =>
    intro file nr d h1 h2
    omega
  | succ pc ih =>
    intro file nr d h1 h2
    unfold fileWritePages
    by_cases hpn : p = nr
    · apply fileWritePages_isSome_mono
      rw [hpn, fileLookup_put_eq]
      rfl
    · exact ih _ _ _ (by omega) (by push_cast at h2 ⊢; omega)

theorem fileWritePages_outside (ps : Nat) (p : Int) :
    ∀ (pc : Nat) (file : File) (nr : Int) (d : List Nat),
      (p < nr ∨ nr + (pc : Int) ≤ p) →
      fileLookup (fileWritePages file nr pc ps d) p = fileLookup file p := by
  intro pc
  induction pc with
  | zero => intro file nr d _; rfl
  | succ pc ih =>
    intro file nr d h
    unfold fileWritePages
    rw [ih _ _ _ (by push_cast at h ⊢; omega)]
    rw [fileLookup_put_ne _ _ _ _ (by omega)]

theorem mf_write_loop_infile_mono (env : Env) :
    ∀ (fuel : Nat) (mfp : memfile_T) (file : File) (dm : Bool) (nr0 : Int),
      mfp.mf_infile_count ≤ (mf_write_loop env fuel mfp file dm nr0).2.1.mf_infile_count := by
  intro fuel
  induction fuel with
  | zero =>
    intro mfp file dm nr0
    exact le_of_eq rfl
  | succ fuel ih =>
    intro mfp file dm nr0
    unfold mf_write_loop
    split
    · exact le_of_eq rfl
    · rename_i hp hl
      dsimp only
      split
      · split
        · exact le_of_eq rfl
        · split
          · dsimp only
            split <;> omega
          · refine le_trans ?_ (ih _ _ _ _)
            dsimp only
            split <;> omega
      · split
        · exact le_of_eq rfl
        · split
          · dsimp only
            split <;> omega
          · refine le_trans ?_ (ih _ _ _ _)
            dsimp only
            split <;> omega

theorem hashLookup_bnum (h : List bhdr_T) (n : Int) (x : bhdr_T)
    (hf : hashLookup h n = some x) : x.bh_bnum = n := by
  unfold hashLookup at hf
  have := List.find?_some hf
  simpa using this


theorem mf_write_loop_success_bound (env : Env) :
    ∀ (fuel : Nat) (mfp : memfile_T) (file : File) (dm : Bool) (nr0 : Int) (hp : bhdr_T),
      hashLookup mfp.mf_hash nr0 = some hp →
      ((mf_write_loop env fuel mfp file dm nr0).1 = OK →
        nr0 + (hp.bh_page_count : Int)
          ≤ (mf_write_loop env fuel mfp file dm nr0).2.1.mf_infile_count) := by
  intro fuel
  induction fuel with
  | zero =>
    intro mfp file dm nr0 hp hl hOK
    simp [mf_write_loop, FAIL, OK] at hOK
  | succ fuel ih =>
    intro mfp file dm nr0 hp hl
    unfold mf_write_loop
    rw [hl]
    dsimp only
    split
    · -- gap-filling iteration: nr = mf_infile_count < nr0
      rename_i hA
      split
      · intro hOK
        simp [FAIL, OK] at hOK
      · split
        · -- if nr = nr0 (contradicts nr < nr0)
          rename_i hE
          intro _
          omega
        · -- recurse; the block at mf_infile_count (if any) only lost BH_DIRTY
          split
          · exact ih _ _ _ _ _ hl
          · rename_i h2 heq2
            have hb2 : h2.bh_bnum = mfp.mf_infile_count := hashLookup_bnum _ _ _ heq2
            have hl2 : hashLookup (hashUpdate mfp.mf_hash h2.bh_bnum
                (fun e => { e with bh_flags := clearFlag e.bh_flags BH_DIRTY })) nr0
                = some hp := by
              rw [hashLookup_update_ne]
              · exact hl
              · intro e
                rfl
              · omega
            exact ih _ _ _ _ _ hl2
    · -- final iteration: nr = nr0
      rename_i hA
      split
      · intro hOK
        simp [FAIL, OK] at hOK
      · split
        · intro _
          dsimp only
          split <;> omega
        · rename_i hne
          exact absurd rfl hne

theorem mf_write_loop_no_holes (env : Env) :
    ∀ (fuel : Nat) (mfp : memfile_T) (file : File) (dm : Bool) (nr0 : Int),
      0 ≤ nr0 → 0 ≤ mfp.mf_infile_count →
      (∀ p : Int, 0 ≤ p → p < mfp.mf_infile_count → (fileLookup file p).isSome = true) →
      (0 ≤ (mf_write_loop env fuel mfp file dm nr0).2.1.mf_infile_count ∧
       ∀ p : Int, 0 ≤ p → p < (mf_write_loop env fuel mfp file dm nr0).2.1.mf_infile_count →
         (fileLookup (mf_write_loop env fuel mfp file dm nr0).2.2.1 p).isSome = true) := by
  intro fuel
  induction fuel with
  | zero =>
    intro mfp file dm nr0 h0 hic hcov
    exact ⟨hic, hcov⟩
  | succ fuel ih =>
    intro mfp file dm nr0 h0 hic hcov
    unfold mf_write_loop
    split
    · exact ⟨hic, hcov⟩
    · rename_i hp hl
      dsimp only
      split
      · -- nr = mf_infile_count < nr0 (gap filling)
        rename_i hA
        split
        · exact ⟨hic, hcov⟩
        · split
          · -- nr = nr0: contradicts hA
            rename_i hE
            omega
          · -- recurse
            split
            · -- freed block at nr: one filler page of hp's data
              refine ih _ _ _ _ h0 (by dsimp only; split <;> omega) ?_
              intro p hp0 hplt
              dsimp only at hplt
              split at hplt
              · by_cases hpi : p < mfp.mf_infile_count
                · exact fileWritePages_isSome_mono _ _ _ _ _ _ (hcov p hp0 hpi)
                · exact fileWritePages_covers _ _ _ _ _ _ (by omega) (by omega)
              · exact fileWritePages_isSome_mono _ _ _ _ _ _ (hcov p hp0 hplt)
            · -- live block at nr
              refine ih _ _ _ _ h0 (by dsimp only; split <;> omega) ?_
              intro p hp0 hplt
              dsimp only at hplt
              split at hplt
              · by_cases hpi : p < mfp.mf_infile_count
                · exact fileWritePages_isSome_mono _ _ _ _ _ _ (hcov p hp0 hpi)
                · exact fileWritePages_covers _ _ _ _ _ _ (by omega) (by omega)
              · exact fileWritePages_isSome_mono _ _ _ _ _ _ (hcov p hp0 hplt)
      · -- nr = nr0 ≤ mf_infile_count
        rename_i hA
        split
        · exact ⟨hic, hcov⟩
        · split
          · -- returns (OK, mfp2, file1, false)
            refine ⟨by dsimp only; split <;> omega, ?_⟩
            intro p hp0 hplt
            dsimp only at hplt ⊢
            split at hplt
            · by_cases hpi : p < mfp.mf_infile_count
              · exact fileWritePages_isSome_mono _ _ _ _ _ _ (hcov p hp0 hpi)
              · exact fileWritePages_covers _ _ _ _ _ _ (by omega) (by omega)
            · exact fileWritePages_isSome_mono _ _ _ _ _ _ (hcov p hp0 hplt)
          · rename_i hne
            exact absurd rfl hne

theorem mf_trans_add_preserves (m : memfile_T) (k : Int) :
    (mf_trans_add m k).1.mf_infile_count = m.mf_infile_count ∧
    (mf_trans_add m k).1.mf_fd = m.mf_fd ∧
    (mf_trans_add m k).1.mf_page_size = m.mf_page_size ∧
    (mf_trans_add m k).1.mf_blocknr_min = m.mf_blocknr_min ∧
    (mf_trans_add m k).1.mf_neg_count = m.mf_neg_count := by
  unfold mf_trans_add
  split
  · exact ⟨rfl, rfl, rfl, rfl, rfl⟩
  · split
    · exact ⟨rfl, rfl, rfl, rfl, rfl⟩
    · cases hfree : m.mf_free_first with
      | nil => exact ⟨rfl, rfl, rfl, rfl, rfl⟩
      | cons freep rest =>
        rename_i hp heq hnot
        by_cases hle : hp.bh_page_count ≤ freep.bh_page_count
        · by_cases hlt : hp.bh_page_count < freep.bh_page_count
          · simp [hle, hlt]
          · simp [hle, hlt]
        · simp [hle]

theorem mf_new_infile (mfp : memfile_T) (negative : Bool) (page_count : Nat)
    (junk junk2 : List Nat) :
    (mf_new mfp negative page_count junk junk2).2.mf_infile_count = mfp.mf_infile_count := by
  unfold mf_new newFresh finishNew
  split
  · split
    · split
      · rfl
      · rfl
    · split
      · rfl
      · rfl
  · split
    · rfl
    · rfl

theorem mf_get_infile (mfp : memfile_T) (nr : Int) (page_count : Nat) (env : Env) :
    (mf_get mfp nr page_count env).2.mf_infile_count = mfp.mf_infile_count := by
  unfold mf_get
  split
  · rfl
  · split
    · split
      · rfl
      · split
        · rfl
        · split
          · rfl
          · split
            · rfl
            · rfl
    · rfl

theorem mf_put_infile (mfp : memfile_T) (nr : Int) (dirty infile : Bool) :
    (mf_put mfp nr dirty infile).1.mf_infile_count = mfp.mf_infile_count := by
  unfold mf_put
  split
  · rfl
  · cases infile with
    | false =>
      simp only [Bool.false_eq_true, if_false]
      simp [apply_ite memfile_T.mf_infile_count]
    | true =>
      simp only [if_true]
      rw [(mf_trans_add_preserves _ _).1]
      simp [apply_ite memfile_T.mf_infile_count]

theorem mf_free_infile (mfp : memfile_T) (nr : Int) :
    (mf_free mfp nr).mf_infile_count = mfp.mf_infile_count := by
  unfold mf_free
  split
  · rfl
  · split
    · rfl
    · rfl

theorem mf_trans_del_infile (mfp : memfile_T) (old_nr : Int) :
    (mf_trans_del mfp old_nr).2.mf_infile_count = mfp.mf_infile_count := by
  unfold mf_trans_del
  split
  · rfl
  · rfl

theorem mf_write_infile_mono (env : Env) (mfp : memfile_T) (file : File) (dm : Bool)
    (nr : Int) :
    mfp.mf_infile_count ≤ (mf_write env mfp file dm nr).2.1.mf_infile_count := by
  unfold mf_write
  split
  · exact le_of_eq rfl
  · dsimp only
    split
    · refine le_trans (le_of_eq ((mf_trans_add_preserves mfp nr).1).symm) ?_
      exact mf_write_loop_infile_mono env _ _ _ _ _
    · exact mf_write_loop_infile_mono env _ _ _ _ _

theorem syncLoop_infile_mono (env : Env) (flags : Nat) :
    ∀ (nrs : List Int) (i status : Nat) (mfp : memfile_T) (file : File) (dm gi : Bool),
      mfp.mf_infile_count ≤ (syncLoop env flags nrs i status mfp file dm gi).2.1.mf_infile_count := by
  intro nrs
  induction nrs with
  | nil =>
    intro i status mfp file dm gi
    exact le_of_eq rfl
  | cons nr rest ih =>
    intro i status mfp file dm gi
    unfold syncLoop
    split
    · exact ih _ _ _ _ _ _
    · rename_i hp hl
      split
      · split
        · exact ih _ _ _ _ _ _
        · split
          rename_i wst mfp1 file1 didMsg1 heq
          have hw : mfp.mf_infile_count ≤ mfp1.mf_infile_count := by
            have h := mf_write_infile_mono env mfp file dm hp.bh_bnum
            rw [heq] at h
            exact h
          split
          · exact hw
          · dsimp only
            split
            · exact hw
            · split <;> split <;> first
                | exact hw
                | exact le_trans hw (ih _ _ _ _ _ _)
      · exact ih _ _ _ _ _ _

theorem mf_sync_infile_mono (env : Env) (mfp : memfile_T) (file : File) (dm gi : Bool)
    (flags : Nat) :
    mfp.mf_infile_count ≤ (mf_sync env mfp file dm gi flags).2.1.mf_infile_count := by
  unfold mf_sync
  split
  · exact le_of_eq rfl
  · rcases hsl : syncLoop env flags (mfp.mf_hash.map bhdr_T.bh_bnum) 0 OK mfp file dm false
      with ⟨status, mfp1, file1, didMsg1, gi2, broke⟩
    simp only [hsl]
    have h := syncLoop_infile_mono env flags (mfp.mf_hash.map bhdr_T.bh_bnum) 0 OK mfp file dm false
    rw [hsl] at h
    split
    · exact h
    · exact h

theorem mf_write_success_bound (env : Env) (mfp : memfile_T) (file : File) (dm : Bool)
    (nr : Int) (hp : bhdr_T) (hnr : 0 ≤ nr) (hl : hashLookup mfp.mf_hash nr = some hp) :
    (mf_write env mfp file dm nr).1 = OK →
    nr + (hp.bh_page_count : Int) ≤ (mf_write env mfp file dm nr).2.1.mf_infile_count := by
  unfold mf_write
  split
  · intro hOK
    simp [FAIL, OK] at hOK
  · dsimp only
    rw [if_neg (by omega)]
    exact mf_write_loop_success_bound env _ _ _ _ _ _ hl

theorem mf_write_no_holes (env : Env) (mfp : memfile_T) (file : File) (dm : Bool)
    (nr : Int) (hnr : 0 ≤ nr) (hic : 0 ≤ mfp.mf_infile_count)
    (hcov : ∀ p : Int, 0 ≤ p → p < mfp.mf_infile_count → (fileLookup file p).isSome = true) :
    0 ≤ (mf_write env mfp file dm nr).2.1.mf_infile_count ∧
    ∀ p : Int, 0 ≤ p → p < (mf_write env mfp file dm nr).2.1.mf_infile_count →
      (fileLookup (mf_write env mfp file dm nr).2.2.1 p).isSome = true := by
  unfold mf_write
  split
  · exact ⟨hic, hcov⟩
  · dsimp only
    rw [if_neg (by omega)]
    exact mf_write_loop_no_holes env _ _ _ _ _ hnr hic hcov

/-- C8: mf_infile_count never decreases across any operation (equalities
for the non-writing operations, monotonicity for mf_write and mf_sync);
after a successful mf_write of block H, infile_count ≥ H.bnum +
H.page_count; and mf_write preserves the no-holes property: if every page
index below infile_count had been written, the same holds afterwards (the
gap-filling loop writes filler at every page from the old infile_count up
to H.bnum). -/
theorem C8_infile_count (mfp : memfile_T) :
    (∀ (negative : Bool) (page_count : Nat) (junk junk2 : List Nat),
       (mf_new mfp negative page_count junk junk2).2.mf_infile_count
         = mfp.mf_infile_count) ∧
    (∀ (nr : Int) (page_count : Nat) (env : Env),
       (mf_get mfp nr page_count env).2.mf_infile_count = mfp.mf_infile_count) ∧
    (∀ (nr : Int) (dirty infile : Bool),
       (mf_put mfp nr dirty infile).1.mf_infile_count = mfp.mf_infile_count) ∧
    (∀ nr : Int, (mf_free mfp nr).mf_infile_count = mfp.mf_infile_count) ∧
    (∀ nr : Int, (mf_trans_add mfp nr).1.mf_infile_count = mfp.mf_infile_count) ∧
    (∀ old_nr : Int, (mf_trans_del mfp old_nr).2.mf_infile_count = mfp.mf_infile_count) ∧
    ((mf_set_dirty mfp).mf_infile_count = mfp.mf_infile_count) ∧
    (∀ (env : Env) (file : File) (dm : Bool) (nr : Int),
       mfp.mf_infile_count ≤ (mf_write env mfp file dm nr).2.1.mf_infile_count) ∧
    (∀ (env : Env) (file : File) (dm gi : Bool) (flags : Nat),
       mfp.mf_infile_count ≤ (mf_sync env mfp file dm gi flags).2.1.mf_infile_count) ∧
    (∀ (env : Env) (file : File) (dm : Bool) (nr : Int) (hp : bhdr_T),
       0 ≤ nr → hashLookup mfp.mf_hash nr = some hp →
       (mf_write env mfp file dm nr).1 = OK →
       nr + (hp.bh_page_count : Int) ≤ (mf_write env mfp file dm nr).2.1.mf_infile_count) ∧
    (∀ (env : Env) (file : File) (dm : Bool) (nr : Int),
       0 ≤ nr → 0 ≤ mfp.mf_infile_count →
       (∀ p : Int, 0 ≤ p → p < mfp.mf_infile_count → (fileLookup file p).isSome = true) →
       ∀ p : Int, 0 ≤ p → p < (mf_write env mfp file dm nr).2.1.mf_infile_count →
         (fileLookup (mf_write env mfp file dm nr).2.2.1 p).isSome = true) := by
  refine ⟨?_, ?_, ?_, ?_, ?_, ?_, ?_, ?_, ?_, ?_, ?_⟩
  · intro negative page_count junk junk2
    exact mf_new_infile mfp negative page_count junk junk2
  · intro nr page_count env
    exact mf_get_infile mfp nr page_count env
  · intro nr dirty infile
    exact mf_put_infile mfp nr dirty infile
  · intro nr
    exact mf_free_infile mfp nr
  · intro nr
    exact (mf_trans_add_preserves mfp nr).1
  · intro old_nr
    exact mf_trans_del_infile mfp old_nr
  · rfl
  · intro env file dm nr
    exact mf_write_infile_mono env mfp file dm nr
  · intro env file dm gi flags
    exact mf_sync_infile_mono env mfp file dm gi flags
  · intro env file dm nr hp hnr hl hOK
    exact mf_write_success_bound env mfp file dm nr hp hnr hl hOK
  · intro env file dm nr hnr hic hcov
    exact (mf_write_no_holes env mfp file dm nr hnr hic hcov).2

/-- C8 witness at a concrete input: writing dirty block 2 into an empty
file gap-fills pages 0 and 1. -/
theorem C8_witness :
    exStGap.mf_infile_count ≤ (mf_write exEnvOk exStGap [] false 2).2.1.mf_infile_count ∧
    ((2 : Int) + (exBlk2.bh_page_count : Int)
       ≤ (mf_write exEnvOk exStGap [] false 2).2.1.mf_infile_count) ∧
    (fileLookup (mf_write exEnvOk exStGap [] false 2).2.2.1 1).isSome = true := by
  have h := C8_infile_count exStGap
  refine ⟨h.2.2.2.2.2.2.2.1 exEnvOk [] false 2, ?_, ?_⟩
  · exact h.2.2.2.2.2.2.2.2.2.1 exEnvOk [] false 2 exBlk2 (by decide) (by decide) (by decide)
  · refine h.2.2.2.2.2.2.2.2.2.2 exEnvOk [] false 2 (by decide) (by decide)
      (fun p h1 h2 => absurd (lt_of_le_of_lt h1 h2) (lt_irrefl 0)) 1 (by decide) (by decide)

theorem mf_write_zero (env : Env) (mfp : memfile_T) (file : File) (dm : Bool)
    (hic : 0 ≤ mfp.mf_infile_count) (hp0 : bhdr_T)
    (hl : hashLookup mfp.mf_hash 0 = some hp0) :
    (∀ n : Int, n ≠ 0 →
       hashLookup (mf_write env mfp file dm 0).2.1.mf_hash n = hashLookup mfp.mf_hash n) ∧
    (∀ hq, hashLookup (mf_write env mfp file dm 0).2.1.mf_hash 0 = some hq →
       hq.bh_page_count = hp0.bh_page_count) ∧
    0 ≤ (mf_write env mfp file dm 0).2.1.mf_infile_count ∧
    (∀ p : Int, p < 0 ∨ (hp0.bh_page_count : Int) ≤ p →
       fileLookup (mf_write env mfp file dm 0).2.2.1 p = fileLookup file p) := by
  have hb0 : hp0.bh_bnum = 0 := hashLookup_bnum _ _ _ hl
  unfold mf_write
  split
  · refine ⟨fun n _ => rfl, ?_, hic, fun p _ => rfl⟩
    intro hq hq'
    rw [hl] at hq'
    cases hq'
    rfl
  · rw [if_neg (by omega)]
    dsimp only
    unfold mf_write_loop
    rw [hl]
    dsimp only
    have hA : ¬ (mfp.mf_infile_count < (0 : Int)) := by omega
    simp only [if_neg hA]
    split
    · refine ⟨fun n _ => rfl, ?_, hic, fun p _ => rfl⟩
      intro hq hq'
      rw [hl] at hq'
      cases hq'
      rfl
    · simp only [if_true]
      refine ⟨?_, ?_, ?_, ?_⟩
      · intro n hn
        rw [hb0]
        rw [hashLookup_update_ne]
        · intro e
          rfl
        · exact hn
      · intro hq hq'
        rw [hb0] at hq'
        rw [hashLookup_update_eq] at hq'
        · rw [hl] at hq'
          cases hq'
          rfl
        · intro e
          rfl
      · dsimp only
        split <;> omega
      · intro p hpcond
        exact fileWritePages_outside _ _ _ _ _ _ (by omega)

theorem syncLoop_zero (env : Env) (flags : Nat) (hz : flags &&& MFS_ZERO ≠ 0)
    (mfp0 : memfile_T) (file0 : File) :
    ∀ (nrs : List Int) (i status : Nat) (mfp : memfile_T) (file : File) (dm gi : Bool),
      (∀ n : Int, n ≠ 0 → hashLookup mfp.mf_hash n = hashLookup mfp0.mf_hash n) →
      (∀ hq, hashLookup mfp.mf_hash 0 = some hq →
         ∃ q0, hashLookup mfp0.mf_hash 0 = some q0 ∧ hq.bh_page_count = q0.bh_page_count) →
      0 ≤ mfp.mf_infile_count →
      (∀ p : Int, (∀ q0, hashLookup mfp0.mf_hash 0 = some q0 →
           p < 0 ∨ (q0.bh_page_count : Int) ≤ p) →
         fileLookup file p = fileLookup file0 p) →
      ((∀ n : Int, n ≠ 0 →
          hashLookup (syncLoop env flags nrs i status mfp file dm gi).2.1.mf_hash n
            = hashLookup mfp0.mf_hash n) ∧
       (∀ p : Int, (∀ q0, hashLookup mfp0.mf_hash 0 = some q0 →
            p < 0 ∨ (q0.bh_page_count : Int) ≤ p) →
          fileLookup (syncLoop env flags nrs i status mfp file dm gi).2.2.1 p
            = fileLookup file0 p)) := by
  intro nrs
  induction nrs with
  | nil =>
    intro i status mfp file dm gi Ia Ib Iic If
    exact ⟨Ia, If⟩
  | cons nr rest ih =>
    intro i status mfp file dm gi Ia Ib Iic If
    unfold syncLoop
    split
    · exact ih _ _ _ _ _ _ Ia Ib Iic If
    · rename_i hp heq
      split
      · split
        · exact ih _ _ _ _ _ _ Ia Ib Iic If
        · rename_i hcond hnskip
          have hb0 : hp.bh_bnum = 0 := by
            by_contra hne
            exact hnskip ⟨hz, hne⟩
          have hnr0 : nr = 0 := by
            have hb := hashLookup_bnum _ _ _ heq
            omega
          have hl0 : hashLookup mfp.mf_hash 0 = some hp := hnr0 ▸ heq
          rw [hb0]
          split
          rename_i wst mfp1 file1 didMsg1 heqw
          have z := mf_write_zero env mfp file dm Iic hp hl0
          rw [heqw] at z
          have Ia1 : ∀ n : Int, n ≠ 0 →
              hashLookup mfp1.mf_hash n = hashLookup mfp0.mf_hash n :=
            fun n hn => (z.1 n hn).trans (Ia n hn)
          have Ib1 : ∀ hq, hashLookup mfp1.mf_hash 0 = some hq →
              ∃ q0, hashLookup mfp0.mf_hash 0 = some q0
                ∧ hq.bh_page_count = q0.bh_page_count := by
            intro hq hq'
            obtain ⟨q0, hq0, hpc⟩ := Ib hp hl0
            exact ⟨q0, hq0, (z.2.1 hq hq').trans hpc⟩
          have Iic1 : 0 ≤ mfp1.mf_infile_count := z.2.2.1
          have If1 : ∀ p : Int, (∀ q0, hashLookup mfp0.mf_hash 0 = some q0 →
              p < 0 ∨ (q0.bh_page_count : Int) ≤ p) →
              fileLookup file1 p = fileLookup file0 p := by
            intro p hc
            obtain ⟨q0, hq0, hpc⟩ := Ib hp hl0
            have hcp := hc q0 hq0
            have hcp1 : p < 0 ∨ (hp.bh_page_count : Int) ≤ p := by omega
            exact (z.2.2.2 p hcp1).trans (If p hc)
          split
          · exact ⟨Ia1, If1⟩
          · dsimp only
            split
            · exact ⟨Ia1, If1⟩
            · split <;> split <;> first
                | exact ⟨Ia1, If1⟩
                | exact ih _ _ _ _ _ _ Ia1 Ib1 Iic1 If1
      · exact ih _ _ _ _ _ _ Ia Ib Iic If

/-- C9: during mf_sync with the ZERO flag, no block other than bnum == 0
is written: every index entry with a nonzero block number is unchanged
(its DIRTY flag included), and the swap file is unchanged outside block
0's own pages. -/
theorem C9_sync_zero (env : Env) (mfp : memfile_T) (file : File) (dm gi : Bool)
    (flags : Nat) (hz : flags &&& MFS_ZERO ≠ 0) (hic : 0 ≤ mfp.mf_infile_count) :
    (∀ n : Int, n ≠ 0 →
       hashLookup (mf_sync env mfp file dm gi flags).2.1.mf_hash n
         = hashLookup mfp.mf_hash n) ∧
    (∀ p : Int,
       (∀ q0, hashLookup mfp.mf_hash 0 = some q0 →
          p < 0 ∨ (q0.bh_page_count : Int) ≤ p) →
       fileLookup (mf_sync env mfp file dm gi flags).2.2.1 p = fileLookup file p) := by
  unfold mf_sync
  split
  · exact ⟨fun n _ => rfl, fun p _ => rfl⟩
  · rcases hsl : syncLoop env flags (mfp.mf_hash.map bhdr_T.bh_bnum) 0 OK mfp file dm false
      with ⟨status, mfp1, file1, didMsg1, gi2, broke⟩
    have z := syncLoop_zero env flags hz mfp file (mfp.mf_hash.map bhdr_T.bh_bnum)
      0 OK mfp file dm false (fun n _ => rfl) (fun hq hq' => ⟨hq, hq', rfl⟩) hic
      (fun p _ => rfl)
    rw [hsl] at z
    simp only [hsl]
    constructor
    · intro n hn
      split
      · exact z.1 n hn
      · exact z.1 n hn
    · intro p hc
      exact z.2 p hc

/-- C9 witness at a concrete input: ZERO sync over blocks 1 and 0 leaves
block 1 and the file outside page 0 untouched. -/
theorem C9_witness :
    hashLookup (mf_sync exEnvOk exStZero [] false false MFS_ZERO).2.1.mf_hash 1
      = hashLookup exStZero.mf_hash 1 ∧
    fileLookup (mf_sync exEnvOk exStZero [] false false MFS_ZERO).2.2.1 1
      = fileLookup ([] : File) 1 := by
  have h := C9_sync_zero exEnvOk exStZero [] false false MFS_ZERO (by decide) (by decide)
  refine ⟨h.1 1 (by decide), h.2 1 ?_⟩
  intro q0 hq0
  have hx : hashLookup exStZero.mf_hash 0 = some exBlk0 := by decide
  rw [hx] at hq0
  have hq : q0 = exBlk0 := (Option.some.inj hq0).symm
  subst hq
  decide

theorem hashLookup_mem (h : List bhdr_T) (k : Int) (hp : bhdr_T)
    (hl : hashLookup h k = some hp) : hp ∈ h :=
  List.mem_of_find?_eq_some hl

theorem hashLookup_none (h : List bhdr_T) (k : Int)
    (hl : hashLookup h k = none) : ∀ hp ∈ h, hp.bh_bnum ≠ k := by
  intro hp hmem
  have := List.find?_eq_none.mp hl hp hmem
  simpa using this

theorem hashDel_mem (h : List bhdr_T) (k : Int) (hp : bhdr_T)
    (hmem : hp ∈ hashDel h k) : hp ∈ h ∧ hp.bh_bnum ≠ k := by
  unfold hashDel at hmem
  have h1 := List.mem_of_mem_filter hmem
  have h2 := List.of_mem_filter hmem
  refine ⟨h1, ?_⟩
  simpa using h2

theorem hashDel_not_mem (h : List bhdr_T) (k : Int)
    (hk : ∀ hp ∈ h, hp.bh_bnum ≠ k) : hashDel h k = h := by
  unfold hashDel
  apply List.filter_eq_self.mpr
  intro a ha
  simpa using hk a ha

theorem countNeg_cons (e : bhdr_T) (t : List bhdr_T) :
    countNeg (e :: t) = countNeg t + (if e.bh_bnum < 0 then 1 else 0) := by
  by_cases hc : e.bh_bnum < 0
  · simp [countNeg, List.countP_cons, hc]
  · simp [countNeg, List.countP_cons, hc]

theorem countNeg_del_nonneg (k : Int) (hk : 0 ≤ k) :
    ∀ h : List bhdr_T, countNeg (hashDel h k) = countNeg h := by
  intro h
  induction h with
  | nil => rfl
  | cons e t ih =>
    by_cases hek : e.bh_bnum = k
    · have hb : (e.bh_bnum != k) = false := by simp [hek]
      have h1 : hashDel (e :: t) k = hashDel t k := by
        unfold hashDel
        simp [List.filter, hb]
      rw [h1, ih, countNeg_cons]
      rw [if_neg (by omega)]
      ring
    · have hb : (e.bh_bnum != k) = true := by simp [hek]
      have h1 : hashDel (e :: t) k = e :: hashDel t k := by
        unfold hashDel
        simp [List.filter, hb]
      rw [h1, countNeg_cons, countNeg_cons, ih]

theorem countNeg_del_neg (k : Int) (hk : k < 0) :
    ∀ (h : List bhdr_T) (hp : bhdr_T), (h.map bhdr_T.bh_bnum).Nodup →
      hashLookup h k = some hp →
      countNeg (hashDel h k) = countNeg h - 1 := by
  intro h
  induction h with
  | nil =>
    intro hp _ hl
    cases hl
  | cons e t ih =>
    intro hp nd hl
    by_cases hek : e.bh_bnum = k
    · have hb : (e.bh_bnum != k) = false := by simp [hek]
      have h1 : hashDel (e :: t) k = hashDel t k := by
        unfold hashDel
        simp [List.filter, hb]
      have hnot : ∀ hq ∈ t, hq.bh_bnum ≠ k := by
        intro hq hmem hqk
        have : e.bh_bnum ∈ t.map bhdr_T.bh_bnum := by
          rw [hek, ← hqk]
          exact List.mem_map_of_mem _ hmem
        exact (List.nodup_cons.mp nd).1 this
      rw [h1, hashDel_not_mem t k hnot, countNeg_cons]
      rw [if_pos (by omega)]
      ring
    · have hb : (e.bh_bnum != k) = true := by simp [hek]
      have h1 : hashDel (e :: t) k = e :: hashDel t k := by
        unfold hashDel
        simp [List.filter, hb]
      have hl2 : hashLookup t k = some hp := by
        unfold hashLookup at hl ⊢
        rwa [List.find?_cons_of_neg _ (by simp [hek])] at hl
      rw [h1, countNeg_cons, countNeg_cons, ih hp (List.nodup_cons.mp nd).2 hl2]
      ring

theorem hashUpdate_map_bnum (h : List bhdr_T) (k : Int) (f : bhdr_T → bhdr_T)
    (hf : ∀ e, (f e).bh_bnum = e.bh_bnum) :
    (hashUpdate h k f).map bhdr_T.bh_bnum = h.map bhdr_T.bh_bnum := by
  unfold hashUpdate
  rw [List.map_map]
  apply List.map_congr_left
  intro a _
  by_cases hak : a.bh_bnum = k
  · simp [hak, hf]
  · simp [hak]

theorem countNeg_update (h : List bhdr_T) (k : Int) (f : bhdr_T → bhdr_T)
    (hf : ∀ e, (f e).bh_bnum = e.bh_bnum) :
    countNeg (hashUpdate h k f) = countNeg h := by
  induction h with
  | nil => rfl
  | cons e t ih =>
    have h1 : hashUpdate (e :: t) k f
        = (if e.bh_bnum == k then f e else e) :: hashUpdate t k f := rfl
    rw [h1, countNeg_cons, countNeg_cons, ih]
    by_cases hek : e.bh_bnum = k
    · simp [hek, hf]
    · simp [hek]

theorem nodup_hashPut (h : List bhdr_T) (hp : bhdr_T)
    (nd : (h.map bhdr_T.bh_bnum).Nodup) :
    ((hashPut h hp).map bhdr_T.bh_bnum).Nodup := by
  unfold hashPut
  rw [List.map_cons]
  apply List.nodup_cons.mpr
  constructor
  · intro hmem
    obtain ⟨hq, hqmem, hqeq⟩ := List.mem_map.mp hmem
    exact (hashDel_mem h hp.bh_bnum hq hqmem).2 hqeq
  · exact List.Nodup.sublist (List.Sublist.map _ (List.filter_sublist h)) nd

theorem nodup_hashDel (h : List bhdr_T) (k : Int)
    (nd : (h.map bhdr_T.bh_bnum).Nodup) :
    ((hashDel h k).map bhdr_T.bh_bnum).Nodup :=
  List.Nodup.sublist (List.Sublist.map _ (List.filter_sublist h)) nd

theorem transLookup_mem_keys (t : List (Int × Int)) (k : Int) (v : Int)
    (hl : transLookup t k = some v) : (k, v) ∈ t := by
  unfold transLookup at hl
  obtain ⟨e, hfind, hsnd⟩ := Option.map_eq_some'.mp hl
  have hmem := List.mem_of_find?_eq_some hfind
  have hfst := List.find?_some hfind
  have hfst' : e.1 = k := by simpa using hfst
  have : e = (k, v) := by
    cases e
    simp_all
  rwa [this] at hmem

theorem transLookup_none_keys (t : List (Int × Int)) (k : Int)
    (hl : transLookup t k = none) : ∀ e ∈ t, e.1 ≠ k := by
  intro e hmem
  unfold transLookup at hl
  have hfind : t.find? (fun e => e.1 == k) = none := by
    cases hf : t.find? (fun e => e.1 == k) with
    | none => rfl
    | some x =>
      rw [hf] at hl
      cases hl
  have := List.find?_eq_none.mp hfind e hmem
  simpa using this

theorem transDelKey_not_mem (t : List (Int × Int)) (k : Int)
    (hk : ∀ e ∈ t, e.1 ≠ k) : transDelKey t k = t := by
  unfold transDelKey
  apply List.filter_eq_self.mpr
  intro a ha
  simpa using hk a ha

theorem transDelKey_mem (t : List (Int × Int)) (k : Int) (e : Int × Int)
    (hmem : e ∈ transDelKey t k) : e ∈ t ∧ e.1 ≠ k := by
  unfold transDelKey at hmem
  have h1 := List.mem_of_mem_filter hmem
  have h2 := List.of_mem_filter hmem
  refine ⟨h1, ?_⟩
  simpa using h2

theorem nodup_transPut (t : List (Int × Int)) (k v : Int)
    (nd : (t.map Prod.fst).Nodup) :
    ((transPut t k v).map Prod.fst).Nodup := by
  unfold transPut
  rw [List.map_cons]
  apply List.nodup_cons.mpr
  constructor
  · intro hmem
    obtain ⟨e, hemem, heeq⟩ := List.mem_map.mp hmem
    exact (transDelKey_mem t k e hemem).2 heeq
  · exact List.Nodup.sublist (List.Sublist.map _ (List.filter_sublist t)) nd

theorem nodup_transDelKey (t : List (Int × Int)) (k : Int)
    (nd : (t.map Prod.fst).Nodup) :
    ((transDelKey t k).map Prod.fst).Nodup :=
  List.Nodup.sublist (List.Sublist.map _ (List.filter_sublist t)) nd

theorem transDelKey_length (k : Int) :
    ∀ (t : List (Int × Int)) (v : Int), (t.map Prod.fst).Nodup →
      transLookup t k = some v →
      ((transDelKey t k).length : Int) = (t.length : Int) - 1 := by
  intro t
  induction t with
  | nil =>
    intro v _ hl
    cases hl
  | cons e s ih =>
    intro v nd hl
    by_cases hek : e.1 = k
    · have hb : (e.1 != k) = false := by simp [hek]
      have h1 : transDelKey (e :: s) k = transDelKey s k := by
        unfold transDelKey
        simp [List.filter, hb]
      have hnot : ∀ e2 ∈ s, e2.1 ≠ k := by
        intro e2 hmem he2
        have : e.1 ∈ s.map Prod.fst := by
          rw [hek, ← he2]
          exact List.mem_map_of_mem _ hmem
        exact (List.nodup_cons.mp nd).1 this
      rw [h1, transDelKey_not_mem s k hnot]
      simp
    · have hb : (e.1 != k) = true := by simp [hek]
      have h1 : transDelKey (e :: s) k = e :: transDelKey s k := by
        unfold transDelKey
        simp [List.filter, hb]
      have hl2 : transLookup s k = some v := by
        unfold transLookup at hl ⊢
        rwa [List.find?_cons_of_neg _ (by simp [hek])] at hl
      rw [h1]
      have := ih v (List.nodup_cons.mp nd).2 hl2
      simp only [List.length_cons]
      push_cast at this ⊢
      omega

theorem hashPut_mem (h : List bhdr_T) (hp hq : bhdr_T) (hm : hq ∈ hashPut h hp) :
    hq = hp ∨ (hq ∈ h ∧ hq.bh_bnum ≠ hp.bh_bnum) := by
  unfold hashPut at hm
  rcases List.mem_cons.mp hm with h1 | h2
  · exact Or.inl h1
  · exact Or.inr (hashDel_mem h hp.bh_bnum hq h2)

theorem transPut_mem (t : List (Int × Int)) (k v : Int) (e : Int × Int)
    (hm : e ∈ transPut t k v) : e = (k, v) ∨ (e ∈ t ∧ e.1 ≠ k) := by
  unfold transPut at hm
  rcases List.mem_cons.mp hm with h1 | h2
  · exact Or.inl h1
  · exact Or.inr (transDelKey_mem t k e h2)

theorem mf_trans_add_char (mfp : memfile_T) (nr : Int) (hp : bhdr_T)
    (hl : hashLookup mfp.mf_hash nr = some hp) (hneg : hp.bh_bnum < 0)
    (hfree : ∀ f ∈ mfp.mf_free_first, 0 ≤ f.bh_bnum) (hmax : 0 ≤ mfp.mf_blocknr_max) :
    ∃ new_bnum : Int, 0 ≤ new_bnum ∧
      (mf_trans_add mfp nr).2 = new_bnum ∧
      (mf_trans_add mfp nr).1.mf_hash
        = hashPut (hashDel mfp.mf_hash hp.bh_bnum) { hp with bh_bnum := new_bnum } ∧
      (mf_trans_add mfp nr).1.mf_trans = transPut mfp.mf_trans hp.bh_bnum new_bnum ∧
      0 ≤ (mf_trans_add mfp nr).1.mf_blocknr_max ∧
      (∀ f ∈ (mf_trans_add mfp nr).1.mf_free_first, 0 ≤ f.bh_bnum) := by
  unfold mf_trans_add
  rw [hl]
  dsimp only
  rw [if_neg (by omega)]
  cases hfl : mfp.mf_free_first with
  | nil =>
    refine ⟨mfp.mf_blocknr_max, hmax, rfl, rfl, rfl, ?_, ?_⟩
    · dsimp only
      omega
    · intro f hf
      cases hf
  | cons freep rest =>
    have hfp : 0 ≤ freep.bh_bnum := hfree freep (by rw [hfl]; exact List.mem_cons_self _ _)
    have hrest : ∀ f ∈ rest, 0 ≤ f.bh_bnum := by
      intro f hf
      exact hfree f (by rw [hfl]; exact List.mem_cons_of_mem _ hf)
    by_cases hle : hp.bh_page_count ≤ freep.bh_page_count
    · by_cases hlt : hp.bh_page_count < freep.bh_page_count
      · refine ⟨freep.bh_bnum, hfp, ?_, ?_, ?_, ?_, ?_⟩ <;> simp [hle, hlt]
        · exact hmax
        · exact ⟨by omega, hrest⟩
      · refine ⟨freep.bh_bnum, hfp, ?_, ?_, ?_, ?_, ?_⟩ <;> simp [hle, hlt]
        · exact hmax
        · exact hrest
    · refine ⟨mfp.mf_blocknr_max, hmax, ?_, ?_, ?_, ?_, ?_⟩ <;> simp [hle]
      · omega
      · constructor
        · exact hfp
        · exact hrest

theorem good_trans_add (mfp : memfile_T) (nr : Int)
    (hWF : WF mfp) (hInv : NegCountInv mfp) :
    (WF (mf_trans_add mfp nr).1 ∧ NegCountInv (mf_trans_add mfp nr).1) ∧
    (∀ hp, hashLookup mfp.mf_hash nr = some hp → hp.bh_bnum < 0 →
       countNeg (mf_trans_add mfp nr).1.mf_hash = countNeg mfp.mf_hash - 1 ∧
       ((mf_trans_add mfp nr).1.mf_trans.length : Int) = (mfp.mf_trans.length : Int) + 1 ∧
       (mf_trans_add mfp nr).1.mf_neg_count = mfp.mf_neg_count) := by
  obtain ⟨hmin, hmax, hgt, hnd, htn, htnd, hth, hfree⟩ := hWF
  cases hl : hashLookup mfp.mf_hash nr with
  | none =>
    have hid : (mf_trans_add mfp nr).1 = mfp := by
      simp only [mf_trans_add, hl]
    rw [hid]
    refine ⟨⟨⟨hmin, hmax, hgt, hnd, htn, htnd, hth, hfree⟩, hInv⟩, ?_⟩
    intro hp hlp
    exact Option.noConfusion hlp
  | some hp =>
    by_cases hsign : 0 ≤ hp.bh_bnum
    · have hid : (mf_trans_add mfp nr).1 = mfp := by
        simp only [mf_trans_add, hl, if_pos hsign]
      rw [hid]
      refine ⟨⟨⟨hmin, hmax, hgt, hnd, htn, htnd, hth, hfree⟩, hInv⟩, ?_⟩
      intro hp2 hlp hneg2
      cases hlp
      omega
    · have hneg : hp.bh_bnum < 0 := by omega
      obtain ⟨new, hnew0, hret, hhash, htrans, hmax', hfree'⟩ :=
        mf_trans_add_char mfp nr hp hl hneg hfree hmax
      have hpre := mf_trans_add_preserves mfp nr
      have hmem : hp ∈ mfp.mf_hash := hashLookup_mem _ _ _ hl
      have hbn : hp.bh_bnum = nr := hashLookup_bnum _ _ _ hl
      have hlold : hashLookup mfp.mf_hash hp.bh_bnum = some hp := by
        rw [hbn]
        exact hl
      have hcn : countNeg (mf_trans_add mfp nr).1.mf_hash = countNeg mfp.mf_hash - 1 := by
        rw [hhash]
        unfold hashPut
        rw [countNeg_cons]
        dsimp only
        rw [if_neg (by omega)]
        rw [countNeg_del_nonneg new hnew0]
        rw [countNeg_del_neg hp.bh_bnum hneg mfp.mf_hash hp hnd hlold]
        ring
      have hknot : ∀ e ∈ mfp.mf_trans, e.1 ≠ hp.bh_bnum := by
        intro e he
        exact fun hcontra => (hth e he hp hmem) hcontra.symm
      have hlen : ((mf_trans_add mfp nr).1.mf_trans.length : Int)
          = (mfp.mf_trans.length : Int) + 1 := by
        rw [htrans]
        unfold transPut
        rw [transDelKey_not_mem _ _ hknot]
        simp
      refine ⟨⟨⟨?_, hmax', ?_, ?_, ?_, ?_, ?_, hfree'⟩, ?_⟩, ?_⟩
      · rw [hpre.2.2.2.1]
        exact hmin
      · intro hq hqm
        rw [hhash] at hqm
        rw [hpre.2.2.2.1]
        rcases hashPut_mem _ _ _ hqm with h1 | ⟨hqh, hqne⟩
        · rw [h1]
          dsimp only
          omega
        · exact hgt hq ((hashDel_mem _ _ _ hqh).1)
      · rw [hhash]
        exact nodup_hashPut _ _ (nodup_hashDel _ _ hnd)
      · intro e he
        rw [htrans] at he
        rw [hpre.2.2.2.1]
        rcases transPut_mem _ _ _ _ he with h1 | ⟨het, _⟩
        · rw [h1]
          dsimp only
          exact ⟨hneg, hgt hp hmem⟩
        · exact htn e het
      · rw [htrans]
        exact nodup_transPut _ _ _ htnd
      · intro e he hq hqm
        rw [htrans] at he
        rw [hhash] at hqm
        rcases transPut_mem _ _ _ _ he with h1 | ⟨het, hene⟩ <;>
          rcases hashPut_mem _ _ _ hqm with h2 | ⟨hqh, hqne⟩
        · rw [h1, h2]
          dsimp only
          omega
        · rw [h1]
          dsimp only
          exact (hashDel_mem _ _ _ hqh).2
        · rw [h2]
          dsimp only
          have := (htn e het).1
          omega
        · exact hth e het hq ((hashDel_mem _ _ _ hqh).1)
      · unfold NegCountInv at hInv ⊢
        rw [hpre.2.2.2.2, hcn, hlen]
        omega
      · intro hp2 hlp hneg2
        cases hlp
        exact ⟨hcn, hlen, hpre.2.2.2.2⟩

theorem finishNew_good (mfp' : memfile_T) (hp0 : bhdr_T) (pc : Nat)
    (hWF : WF mfp') (hkey : mfp'.mf_blocknr_min < hp0.bh_bnum)
    (hkeyT : ∀ e ∈ mfp'.mf_trans, hp0.bh_bnum ≠ e.1) :
    WF (finishNew mfp' hp0 pc).2 ∧
    countNeg (finishNew mfp' hp0 pc).2.mf_hash
      = countNeg (hashDel mfp'.mf_hash hp0.bh_bnum)
        + (if hp0.bh_bnum < 0 then 1 else 0) ∧
    (finishNew mfp' hp0 pc).2.mf_trans = mfp'.mf_trans ∧
    (finishNew mfp' hp0 pc).2.mf_neg_count = mfp'.mf_neg_count := by
  obtain ⟨hmin, hmax, hgt, hnd, htn, htnd, hth, hfree⟩ := hWF
  refine ⟨⟨hmin, hmax, ?_, ?_, htn, htnd, ?_, hfree⟩, ?_, rfl, rfl⟩
  · intro hq hqm
    rcases hashPut_mem _ _ _ hqm with h1 | ⟨hqh, _⟩
    · rw [h1]
      exact hkey
    · exact hgt hq hqh
  · exact nodup_hashPut _ _ hnd
  · intro e he hq hqm
    rcases hashPut_mem _ _ _ hqm with h1 | ⟨hqh, _⟩
    · rw [h1]
      exact hkeyT e he
    · exact hth e he hq hqh
  · show countNeg (hashPut mfp'.mf_hash _) = _
    unfold hashPut
    rw [countNeg_cons]

theorem good_new (mfp : memfile_T) (negative : Bool) (page_count : Nat)
    (junk junk2 : List Nat) (hWF : WF mfp) (hInv : NegCountInv mfp) :
    WF (mf_new mfp negative page_count junk junk2).2 ∧
    NegCountInv (mf_new mfp negative page_count junk junk2).2 := by
  obtain ⟨hmin, hmax, hgt, hnd, htn, htnd, hth, hfree⟩ := hWF
  have hdelmin : hashDel mfp.mf_hash mfp.mf_blocknr_min = mfp.mf_hash :=
    hashDel_not_mem _ _ (fun hq hqm => by have := hgt hq hqm; omega)
  unfold mf_new
  split
  · rename_i freep rest hfl
    have hfp : 0 ≤ freep.bh_bnum := hfree freep (by rw [hfl]; exact List.mem_cons_self _ _)
    have hrest : ∀ f ∈ rest, 0 ≤ f.bh_bnum := by
      intro f hf
      exact hfree f (by rw [hfl]; exact List.mem_cons_of_mem _ hf)
    split
    · split
      · -- split the free head
        have hg := finishNew_good
          { mfp with mf_free_first :=
              { freep with bh_bnum := freep.bh_bnum + (page_count : Int)
                           bh_page_count := freep.bh_page_count - page_count } :: rest }
          { mf_alloc_bhdr page_count junk with bh_bnum := freep.bh_bnum } page_count
          ⟨hmin, hmax, hgt, hnd, htn, htnd, hth, by
            intro f hf
            rcases List.mem_cons.mp hf with h1 | h2
            · rw [h1]
              dsimp only
              omega
            · exact hrest f h2⟩
          (by dsimp only; omega)
          (by
            intro e he
            have := (htn e he).1
            dsimp only
            omega)
        refine ⟨hg.1, ?_⟩
        unfold NegCountInv at hInv ⊢
        rw [hg.2.2.2, hg.2.1, hg.2.2.1]
        dsimp only
        rw [if_neg (by omega), countNeg_del_nonneg _ (by omega)]
        omega
      · -- exact fit
        have hg := finishNew_good { mfp with mf_free_first := rest }
          { freep with bh_data := junk2 } page_count
          ⟨hmin, hmax, hgt, hnd, htn, htnd, hth, hrest⟩
          (by dsimp only; omega)
          (by
            intro e he
            have := (htn e he).1
            dsimp only
            omega)
        refine ⟨hg.1, ?_⟩
        unfold NegCountInv at hInv ⊢
        rw [hg.2.2.2, hg.2.1, hg.2.2.1]
        dsimp only
        rw [if_neg (by omega), countNeg_del_nonneg _ (by omega)]
        omega
    · -- fresh number
      unfold newFresh
      split
      · -- negative
        have hg := finishNew_good
          { mfp with mf_blocknr_min := mfp.mf_blocknr_min - 1
                     mf_neg_count := mfp.mf_neg_count + 1 }
          { mf_alloc_bhdr page_count junk with bh_bnum := mfp.mf_blocknr_min } page_count
          ⟨by dsimp only; omega, hmax,
           by
            intro hq hqm
            have := hgt hq hqm
            dsimp only
            omega,
           hnd,
           by
            intro e he
            have := htn e he
            dsimp only
            omega,
           htnd, hth, hfree⟩
          (by dsimp only; omega)
          (by
            intro e he
            have := (htn e he).2
            dsimp only
            omega)
        refine ⟨hg.1, ?_⟩
        unfold NegCountInv at hInv ⊢
        rw [hg.2.2.2, hg.2.1, hg.2.2.1]
        dsimp only
        rw [if_pos (by omega)]
        rw [hdelmin]
        omega
      · -- positive
        have hg := finishNew_good
          { mfp with mf_blocknr_max := mfp.mf_blocknr_max + (page_count : Int) }
          { mf_alloc_bhdr page_count junk with bh_bnum := mfp.mf_blocknr_max } page_count
          ⟨hmin, by dsimp only; omega, hgt, hnd, htn, htnd, hth, hfree⟩
          (by dsimp only; omega)
          (by
            intro e he
            have := (htn e he).1
            dsimp only
            omega)
        refine ⟨hg.1, ?_⟩
        unfold NegCountInv at hInv ⊢
        rw [hg.2.2.2, hg.2.1, hg.2.2.1]
        dsimp only
        rw [if_neg (by omega), countNeg_del_nonneg _ (by omega)]
        omega
  · -- empty free list: fresh number
    unfold newFresh
    split
    · have hg := finishNew_good
        { mfp with mf_blocknr_min := mfp.mf_blocknr_min - 1
                   mf_neg_count := mfp.mf_neg_count + 1 }
        { mf_alloc_bhdr page_count junk with bh_bnum := mfp.mf_blocknr_min } page_count
        ⟨by dsimp only; omega, hmax,
         by
          intro hq hqm
          have := hgt hq hqm
          dsimp only
          omega,
         hnd,
         by
          intro e he
          have := htn e he
          dsimp only
          omega,
         htnd, hth, hfree⟩
        (by dsimp only; omega)
        (by
          intro e he
          have := (htn e he).2
          dsimp only
          omega)
      refine ⟨hg.1, ?_⟩
      unfold NegCountInv at hInv ⊢
      rw [hg.2.2.2, hg.2.1, hg.2.2.1]
      dsimp only
      rw [if_pos (by omega)]
      rw [hdelmin]
      omega
    · have hg := finishNew_good
        { mfp with mf_blocknr_max := mfp.mf_blocknr_max + (page_count : Int) }
        { mf_alloc_bhdr page_count junk with bh_bnum := mfp.mf_blocknr_max } page_count
        ⟨hmin, by dsimp only; omega, hgt, hnd, htn, htnd, hth, hfree⟩
        (by dsimp only; omega)
        (by
          intro e he
          have := (htn e he).1
          dsimp only
          omega)
      refine ⟨hg.1, ?_⟩
      unfold NegCountInv at hInv ⊢
      rw [hg.2.2.2, hg.2.1, hg.2.2.1]
      dsimp only
      rw [if_neg (by omega), countNeg_del_nonneg _ (by omega)]
      omega

theorem good_get (mfp : memfile_T) (nr : Int) (page_count : Nat) (env : Env)
    (hWF : WF mfp) (hInv : NegCountInv mfp) :
    WF (mf_get mfp nr page_count env).2 ∧ NegCountInv (mf_get mfp nr page_count env).2 := by
  obtain ⟨hmin, hmax, hgt, hnd, htn, htnd, hth, hfree⟩ := hWF
  unfold mf_get
  split
  · exact ⟨⟨hmin, hmax, hgt, hnd, htn, htnd, hth, hfree⟩, hInv⟩
  · split
    · -- not in the index
      rename_i hl
      split
      · exact ⟨⟨hmin, hmax, hgt, hnd, htn, htnd, hth, hfree⟩, hInv⟩
      · rename_i hrange
        split
        · exact ⟨⟨hmin, hmax, hgt, hnd, htn, htnd, hth, hfree⟩, hInv⟩
        · split
          · exact ⟨⟨hmin, hmax, hgt, hnd, htn, htnd, hth, hfree⟩, hInv⟩
          · split
            · exact ⟨⟨hmin, hmax, hgt, hnd, htn, htnd, hth, hfree⟩, hInv⟩
            · -- read from disk and insert block with bnum = nr ≥ 0
              have hnr : 0 ≤ nr := by
                push_neg at hrange
                omega
              refine ⟨⟨hmin, hmax, ?_, ?_, htn, htnd, ?_, hfree⟩, ?_⟩
              · intro hq hqm
                rcases hashPut_mem _ _ _ hqm with h1 | ⟨hqh, _⟩
                · rw [h1]
                  dsimp only
                  omega
                · exact hgt hq hqh
              · exact nodup_hashPut _ _ hnd
              · intro e he hq hqm
                rcases hashPut_mem _ _ _ hqm with h1 | ⟨hqh, _⟩
                · rw [h1]
                  dsimp only
                  have := (htn e he).1
                  omega
                · exact hth e he hq hqh
              · unfold NegCountInv at hInv ⊢
                dsimp only
                unfold hashPut
                rw [countNeg_cons]
                dsimp only
                rw [if_neg (by omega), countNeg_del_nonneg _ (by omega)]
                omega
    · -- found in the index: delete and re-insert locked
      rename_i hp hl
      have hmem : hp ∈ mfp.mf_hash := hashLookup_mem _ _ _ hl
      have hbn : hp.bh_bnum = nr := hashLookup_bnum _ _ _ hl
      have hdel2 : hashDel (hashDel mfp.mf_hash hp.bh_bnum) hp.bh_bnum
          = hashDel mfp.mf_hash hp.bh_bnum :=
        hashDel_not_mem _ _ (fun hq hqm => (hashDel_mem _ _ _ hqm).2)
      refine ⟨⟨hmin, hmax, ?_, ?_, htn, htnd, ?_, hfree⟩, ?_⟩
      · intro hq hqm
        rcases hashPut_mem _ _ _ hqm with h1 | ⟨hqh, _⟩
        · rw [h1]
          exact hgt hp hmem
        · exact hgt hq (hashDel_mem _ _ _ hqh).1
      · exact nodup_hashPut _ _ (nodup_hashDel _ _ hnd)
      · intro e he hq hqm
        rcases hashPut_mem _ _ _ hqm with h1 | ⟨hqh, _⟩
        · rw [h1]
          exact hth e he hp hmem
        · exact hth e he hq (hashDel_mem _ _ _ hqh).1
      · unfold NegCountInv at hInv ⊢
        dsimp only
        unfold hashPut
        rw [countNeg_cons]
        dsimp only
        rw [hdel2]
        by_cases hneg : hp.bh_bnum < 0
        · rw [if_pos hneg, countNeg_del_neg hp.bh_bnum hneg mfp.mf_hash hp hnd (hbn ▸ hl)]
          omega
        · rw [if_neg hneg, countNeg_del_nonneg _ (by omega)]
          omega

theorem hashUpdate_mem_bnum (h : List bhdr_T) (k : Int) (f : bhdr_T → bhdr_T)
    (hf : ∀ e, (f e).bh_bnum = e.bh_bnum) (hq : bhdr_T)
    (hm : hq ∈ hashUpdate h k f) : ∃ e ∈ h, hq.bh_bnum = e.bh_bnum := by
  unfold hashUpdate at hm
  obtain ⟨e, he, heq⟩ := List.mem_map.mp hm
  refine ⟨e, he, ?_⟩
  rw [← heq]
  by_cases hek : e.bh_bnum = k
  · simp [hek, hf]
  · simp [hek]

theorem good_put (mfp : memfile_T) (nr : Int) (dirty infile : Bool)
    (hWF : WF mfp) (hInv : NegCountInv mfp) :
    WF (mf_put mfp nr dirty infile).1 ∧ NegCountInv (mf_put mfp nr dirty infile).1 := by
  unfold mf_put
  split
  · exact ⟨hWF, hInv⟩
  · rename_i hp hl
    dsimp only
    have key : ∀ m1 : memfile_T, m1.mf_hash = mfp.mf_hash → m1.mf_trans = mfp.mf_trans →
        m1.mf_blocknr_min = mfp.mf_blocknr_min → m1.mf_blocknr_max = mfp.mf_blocknr_max →
        m1.mf_neg_count = mfp.mf_neg_count → m1.mf_free_first = mfp.mf_free_first →
        ∀ fl : Nat,
        WF { m1 with mf_hash := (hashUpdate m1.mf_hash nr
               (fun e => { e with bh_flags := fl })) } ∧
        NegCountInv { m1 with mf_hash := (hashUpdate m1.mf_hash nr
               (fun e => { e with bh_flags := fl })) } := by
      intro m1 e1 e2 e3 e4 e5 e6 fl
      obtain ⟨hmin, hmax, hgt, hnd, htn, htnd, hth, hfree⟩ := hWF
      refine ⟨⟨?_, ?_, ?_, ?_, ?_, ?_, ?_, ?_⟩, ?_⟩
      · dsimp only
        rw [e3]
        exact hmin
      · dsimp only
        rw [e4]
        exact hmax
      · intro hq hqm
        dsimp only at hqm ⊢
        rw [e1] at hqm
        rw [e3]
        obtain ⟨e, he, heq⟩ := hashUpdate_mem_bnum _ _
          (fun e => { e with bh_flags := fl }) (fun e => rfl) hq hqm
        rw [heq]
        exact hgt e he
      · dsimp only
        rw [e1]
        rw [hashUpdate_map_bnum _ _ (fun e => { e with bh_flags := fl }) (fun e => rfl)]
        exact hnd
      · intro e he
        dsimp only at he ⊢
        rw [e2] at he
        rw [e3]
        exact htn e he
      · dsimp only
        rw [e2]
        exact htnd
      · intro e he hq hqm
        dsimp only at he hqm
        rw [e2] at he
        rw [e1] at hqm
        obtain ⟨e2b, he2b, heq⟩ := hashUpdate_mem_bnum _ _
          (fun e => { e with bh_flags := fl }) (fun e => rfl) hq hqm
        rw [heq]
        exact hth e he e2b he2b
      · dsimp only
        rw [e6]
        exact hfree
      · unfold NegCountInv
        dsimp only
        rw [e1, e5, e2]
        rw [countNeg_update _ _ (fun e => { e with bh_flags := fl }) (fun e => rfl)]
        exact hInv
    split
    · -- infile: apply mf_trans_add to the flag-updated state
      split
      · rename_i hdirty
        split
        · have hg := key { mfp with mf_dirty := MF_DIRTY_YES } rfl rfl rfl rfl rfl rfl
            (clearFlag hp.bh_flags BH_LOCKED ||| BH_DIRTY)
          exact ⟨(good_trans_add _ nr hg.1 hg.2).1.1, (good_trans_add _ nr hg.1 hg.2).1.2⟩
        · have hg := key mfp rfl rfl rfl rfl rfl rfl
            (clearFlag hp.bh_flags BH_LOCKED ||| BH_DIRTY)
          exact ⟨(good_trans_add _ nr hg.1 hg.2).1.1, (good_trans_add _ nr hg.1 hg.2).1.2⟩
      · have hg := key mfp rfl rfl rfl rfl rfl rfl (clearFlag hp.bh_flags BH_LOCKED)
        exact ⟨(good_trans_add _ nr hg.1 hg.2).1.1, (good_trans_add _ nr hg.1 hg.2).1.2⟩
    · -- no translation
      split
      · rename_i hdirty
        split
        · exact key { mfp with mf_dirty := MF_DIRTY_YES } rfl rfl rfl rfl rfl rfl
            (clearFlag hp.bh_flags BH_LOCKED ||| BH_DIRTY)
        · exact key mfp rfl rfl rfl rfl rfl rfl
            (clearFlag hp.bh_flags BH_LOCKED ||| BH_DIRTY)
      · exact key mfp rfl rfl rfl rfl rfl rfl (clearFlag hp.bh_flags BH_LOCKED)

theorem good_free (mfp : memfile_T) (nr : Int)
    (hWF : WF mfp) (hInv : NegCountInv mfp) :
    (WF (mf_free mfp nr) ∧ NegCountInv (mf_free mfp nr)) ∧
    (∀ hp, hashLookup mfp.mf_hash nr = some hp → hp.bh_bnum < 0 →
       (mf_free mfp nr).mf_neg_count = mfp.mf_neg_count - 1 ∧
       countNeg (mf_free mfp nr).mf_hash = countNeg mfp.mf_hash - 1) := by
  obtain ⟨hmin, hmax, hgt, hnd, htn, htnd, hth, hfree⟩ := hWF
  cases hl : hashLookup mfp.mf_hash nr with
  | none =>
    have hid : mf_free mfp nr = mfp := by
      simp only [mf_free, hl]
    rw [hid]
    refine ⟨⟨⟨hmin, hmax, hgt, hnd, htn, htnd, hth, hfree⟩, hInv⟩, ?_⟩
    intro hp hlp
    exact Option.noConfusion hlp
  | some hp =>
    have hmem : hp ∈ mfp.mf_hash := hashLookup_mem _ _ _ hl
    have hbn : hp.bh_bnum = nr := hashLookup_bnum _ _ _ hl
    have hgt2 : ∀ hq ∈ hashDel mfp.mf_hash nr, mfp.mf_blocknr_min < hq.bh_bnum :=
      fun hq hqm => hgt hq (hashDel_mem _ _ _ hqm).1
    have hnd2 := nodup_hashDel mfp.mf_hash nr hnd
    have hth2 : ∀ e ∈ mfp.mf_trans, ∀ hq ∈ hashDel mfp.mf_hash nr, hq.bh_bnum ≠ e.1 :=
      fun e he hq hqm => hth e he hq (hashDel_mem _ _ _ hqm).1
    by_cases hneg : hp.bh_bnum < 0
    · have hid : mf_free mfp nr
          = { mfp with mf_hash := hashDel mfp.mf_hash nr
                       mf_neg_count := mfp.mf_neg_count - 1 } := by
        simp only [mf_free, hl, if_pos hneg]
      have hcn : countNeg (hashDel mfp.mf_hash nr) = countNeg mfp.mf_hash - 1 := by
        rw [← hbn]
        exact countNeg_del_neg hp.bh_bnum hneg mfp.mf_hash hp hnd (hbn ▸ hl)
      rw [hid]
      refine ⟨⟨⟨hmin, hmax, hgt2, hnd2, htn, htnd, hth2, hfree⟩, ?_⟩, ?_⟩
      · unfold NegCountInv at hInv ⊢
        dsimp only
        rw [hcn]
        omega
      · intro hp2 hlp hneg2
        cases hlp
        exact ⟨rfl, hcn⟩
    · have hid : mf_free mfp nr
          = { mfp with mf_hash := hashDel mfp.mf_hash nr
                       mf_free_first := { hp with bh_data := [] } :: mfp.mf_free_first } := by
        simp only [mf_free, hl, if_neg hneg]
      rw [hid]
      refine ⟨⟨⟨hmin, hmax, hgt2, hnd2, htn, htnd, hth2, ?_⟩, ?_⟩, ?_⟩
      · intro f hf
        rcases List.mem_cons.mp hf with h1 | h2
        · rw [h1]
          dsimp only
          omega
        · exact hfree f h2
      · unfold NegCountInv at hInv ⊢
        dsimp only
        rw [← hbn, countNeg_del_nonneg _ (by omega)]
        exact hInv
      · intro hp2 hlp hneg2
        cases hlp
        omega

theorem good_trans_del (mfp : memfile_T) (old_nr : Int)
    (hWF : WF mfp) (hInv : NegCountInv mfp) :
    (WF (mf_trans_del mfp old_nr).2 ∧ NegCountInv (mf_trans_del mfp old_nr).2) ∧
    (∀ v, transLookup mfp.mf_trans old_nr = some v →
       (mf_trans_del mfp old_nr).2.mf_neg_count = mfp.mf_neg_count - 1 ∧
       ((mf_trans_del mfp old_nr).2.mf_trans.length : Int)
         = (mfp.mf_trans.length : Int) - 1) := by
  obtain ⟨hmin, hmax, hgt, hnd, htn, htnd, hth, hfree⟩ := hWF
  unfold mf_trans_del
  cases hl : transLookup mfp.mf_trans old_nr with
  | none =>
    refine ⟨⟨⟨hmin, hmax, hgt, hnd, htn, htnd, hth, hfree⟩, hInv⟩, ?_⟩
    intro v hlv
    exact Option.noConfusion hlv
  | some v =>
    have hlen := transDelKey_length old_nr mfp.mf_trans v htnd hl
    refine ⟨⟨⟨hmin, hmax, hgt, hnd, ?_, ?_, ?_, hfree⟩, ?_⟩, ?_⟩
    · intro e he
      exact htn e (transDelKey_mem _ _ _ he).1
    · exact nodup_transDelKey _ _ htnd
    · intro e he hq hqm
      exact hth e (transDelKey_mem _ _ _ he).1 hq hqm
    · unfold NegCountInv at hInv ⊢
      dsimp only
      rw [hlen]
      omega
    · intro v2 hlv
      cases hlv
      exact ⟨rfl, hlen⟩

theorem good_open (hasFile : Bool) (size : Int) (ps : Nat) :
    WF (mf_open hasFile size ps) ∧ NegCountInv (mf_open hasFile size ps) := by
  unfold mf_open WF NegCountInv
  dsimp only
  refine ⟨⟨by omega, ?_, by simp, by simp, by simp, by simp, by simp, by simp⟩,
          by simp [countNeg]⟩
  split
  · omega
  · rename_i h
    push_neg at h
    apply Int.ediv_nonneg <;> omega

/-- C10: in every state reachable by the block-lifecycle operations,
mf_neg_count equals the number of negative-numbered blocks in the index
plus the number of translation-table entries; mf_trans_add moves one unit
from the first summand to the second (neg_count unchanged), and mf_free
of a negative block and mf_trans_del of a present entry each decrement
their summand and neg_count by one. -/
theorem C10_neg_count_accounting :
    (∀ mfp, Reachable mfp → WF mfp ∧ NegCountInv mfp) ∧
    (∀ mfp nr hp, WF mfp → NegCountInv mfp →
       hashLookup mfp.mf_hash nr = some hp → hp.bh_bnum < 0 →
       countNeg (mf_trans_add mfp nr).1.mf_hash = countNeg mfp.mf_hash - 1 ∧
       ((mf_trans_add mfp nr).1.mf_trans.length : Int)
         = (mfp.mf_trans.length : Int) + 1 ∧
       (mf_trans_add mfp nr).1.mf_neg_count = mfp.mf_neg_count) ∧
    (∀ mfp nr hp, WF mfp → NegCountInv mfp →
       hashLookup mfp.mf_hash nr = some hp → hp.bh_bnum < 0 →
       (mf_free mfp nr).mf_neg_count = mfp.mf_neg_count - 1 ∧
       countNeg (mf_free mfp nr).mf_hash = countNeg mfp.mf_hash - 1) ∧
    (∀ mfp old_nr v, WF mfp → NegCountInv mfp →
       transLookup mfp.mf_trans old_nr = some v →
       (mf_trans_del mfp old_nr).2.mf_neg_count = mfp.mf_neg_count - 1 ∧
       ((mf_trans_del mfp old_nr).2.mf_trans.length : Int)
         = (mfp.mf_trans.length : Int) - 1) := by
  refine ⟨?_, ?_, ?_, ?_⟩
  · intro mfp hr
    induction hr with
    | base hasFile size page_size => exact good_open hasFile size page_size
    | step_new mfp negative pc j1 j2 hr ih => exact good_new mfp negative pc j1 j2 ih.1 ih.2
    | step_get mfp nr pc env hr ih => exact good_get mfp nr pc env ih.1 ih.2
    | step_put mfp nr d i hr ih => exact good_put mfp nr d i ih.1 ih.2
    | step_free mfp nr hr ih => exact (good_free mfp nr ih.1 ih.2).1
    | step_trans_add mfp nr hr ih => exact (good_trans_add mfp nr ih.1 ih.2).1
    | step_trans_del mfp nr hr ih => exact (good_trans_del mfp nr ih.1 ih.2).1
  · intro mfp nr hp hWF hInv hl hneg
    exact (good_trans_add mfp nr hWF hInv).2 hp hl hneg
  · intro mfp nr hp hWF hInv hl hneg
    exact (good_free mfp nr hWF hInv).2 hp hl hneg
  · intro mfp old_nr v hWF hInv hl
    exact (good_trans_del mfp old_nr hWF hInv).2 v hl

/-- C10 witness at concrete inputs: the state holding the fresh negative
block -1, translating, freeing, and deleting its translation entry. -/
theorem C10_witness :
    (WF exStNeg ∧ NegCountInv exStNeg) ∧
    (mf_trans_add exStNeg (-1)).1.mf_neg_count = exStNeg.mf_neg_count ∧
    (mf_free exStNeg (-1)).mf_neg_count = exStNeg.mf_neg_count - 1 ∧
    (mf_trans_del exStTrans (-1)).2.mf_neg_count = exStTrans.mf_neg_count - 1 := by
  refine ⟨C10_neg_count_accounting.1 exStNeg
            (Reachable.step_new exMem true 1 [0] [0] (Reachable.base false 0 1)), ?_, ?_, ?_⟩
  · exact (C10_neg_count_accounting.2.1 exStNeg (-1)
      { bh_bnum := -1, bh_page_count := 1, bh_flags := 3, bh_data := [0] }
      (by decide) (by decide) (by decide) (by decide)).2.2
  · exact (C10_neg_count_accounting.2.2.1 exStNeg (-1)
      { bh_bnum := -1, bh_page_count := 1, bh_flags := 3, bh_data := [0] }
      (by decide) (by decide) (by decide) (by decide)).1
  · exact (C10_neg_count_accounting.2.2.2 exStTrans (-1) 0
      (by decide) (by decide) (by decide)).1
